import Mathlib

/-!
Verification development for the LicensingPy offline licensing protocol.

The core protocol (hardware fingerprinting, ECDSA signing, preseed
commitments, license generation and the verification state machine) is
embedded shallowly.  The repository ships only the tests, CLI and package
glue for the core modules, so the protocol functions themselves are
modelled from the specification (each such definition carries a
`Modelled from the spec:` doc comment naming the missing code).

Modelling conventions:
- machine integers are `Nat` with explicit `% 2^w` truncation;
- SHA-256 is implemented in full (FIPS 180-4) over byte lists;
- ECDSA P-256 is modelled as an ideal unforgeable signature scheme:
  a key pair is a tagged seed, a signature is an injective encoding of
  the signing key together with the signed message;
- the process environment (current date, machine hardware, directory
  contents, file contents, fingerprint cache) is passed explicitly;
- fallible operations return `Option` or `Except`.
-/

set_option maxRecDepth 4000

namespace LicensingPy

/-! ### SHA-256 (FIPS 180-4) over byte lists -/

/-- Truncation to a 32-bit word. -/
def w32 (n : Nat) : Nat := n % 4294967296

/-- 32-bit modular addition. -/
def wadd (a b : Nat) : Nat := w32 (a + b)

/-- 32-bit bitwise complement. -/
def wnot (a : Nat) : Nat := Nat.xor a 4294967295

/-- Right rotation of a 32-bit word. -/
def rotr (n : Nat) (x : Nat) : Nat :=
  w32 (Nat.lor (Nat.shiftRight x n) (Nat.shiftLeft x (32 - n)))

/-- Logical right shift. -/
def shr (n : Nat) (x : Nat) : Nat := Nat.shiftRight x n

def bsig0 (x : Nat) : Nat := Nat.xor (rotr 2 x) (Nat.xor (rotr 13 x) (rotr 22 x))

def bsig1 (x : Nat) : Nat := Nat.xor (rotr 6 x) (Nat.xor (rotr 11 x) (rotr 25 x))

def ssig0 (x : Nat) : Nat := Nat.xor (rotr 7 x) (Nat.xor (rotr 18 x) (shr 3 x))

def ssig1 (x : Nat) : Nat := Nat.xor (rotr 17 x) (Nat.xor (rotr 19 x) (shr 10 x))

def chF (x y z : Nat) : Nat := Nat.xor (Nat.land x y) (Nat.land (wnot x) z)

def majF (x y z : Nat) : Nat :=
  Nat.xor (Nat.land x y) (Nat.xor (Nat.land x z) (Nat.land y z))

/-- The SHA-256 round constants (first 32 bits of the fractional parts of
the cube roots of the first 64 primes). -/
def sha256K : List Nat :=
  [1116352408, 1899447441, 3049323471, 3921009573, 961987163, 1508970993,
   2453635748, 2870763221, 3624381080, 310598401, 607225278, 1426881987,
   1925078388, 2162078206, 2614888103, 3248222580, 3835390401, 4022224774,
   264347078, 604807628, 770255983, 1249150122, 1555081692, 1996064986,
   2554220882, 2821834349, 2952996808, 3210313671, 3336571891, 3584528711,
   113926993, 338241895, 666307205, 773529912, 1294757372, 1396182291,
   1695183700, 1986661051, 2177026350, 2456956037, 2730485921, 2820302411,
   3259730800, 3345764771, 3516065817, 3600352804, 4094571909, 275423344,
   430227734, 506948616, 659060556, 883997877, 958139571, 1322822218,
   1537002063, 1747873779, 1955562222, 2024104815, 2227730452, 2361852424,
   2428436474, 2756734187, 3204031479, 3329325298]

/-- The SHA-256 hash state: eight 32-bit words. -/
structure Sha256State where
  a : Nat
  b : Nat
  c : Nat
  d : Nat
  e : Nat
  f : Nat
  g : Nat
  h : Nat
deriving DecidableEq

/-- The SHA-256 initial hash value. -/
def sha256H0 : Sha256State :=
  ⟨1779033703, 3144134277, 1013904242, 2773480762, 1359893119, 2600822924, 528734635, 1541459225⟩

/-- Split a byte list into big-endian 32-bit words. -/
def toWords : List Nat → List Nat
  | b0 :: b1 :: b2 :: b3 :: rest => (((b0 * 256 + b1) * 256 + b2) * 256 + b3) :: toWords rest
  | _ => []

/-- Message-schedule extension: prepend `n` further words to the reversed
schedule `acc`. -/
def extendW : Nat → List Nat → List Nat
  | 0, acc => acc
  | n + 1, acc =>
    let w2 := acc.getD 1 0
    let w7 := acc.getD 6 0
    let w15 := acc.getD 14 0
    let w16 := acc.getD 15 0
    extendW n (wadd (wadd (ssig1 w2) w7) (wadd (ssig0 w15) w16) :: acc)

/-- One SHA-256 compression round. -/
def sha256Round (ki wi : Nat) (s : Sha256State) : Sha256State :=
  let t1 := wadd (wadd s.h (bsig1 s.e)) (wadd (chF s.e s.f s.g) (wadd ki wi))
  let t2 := wadd (bsig0 s.a) (majF s.a s.b s.c)
  ⟨wadd t1 t2, s.a, s.b, s.c, wadd s.d t1, s.e, s.f, s.g⟩

/-- Run the 64 compression rounds over the round constants and schedule. -/
def sha256Rounds : List Nat → List Nat → Sha256State → Sha256State
  | k :: ks, wv :: ws, st => sha256Rounds ks ws (sha256Round k wv st)
  | _, _, st => st

/-- Add two hash states word-wise (mod 2^32). -/
def addStates (x y : Sha256State) : Sha256State :=
  ⟨wadd x.a y.a, wadd x.b y.b, wadd x.c y.c, wadd x.d y.d,
   wadd x.e y.e, wadd x.f y.f, wadd x.g y.g, wadd x.h y.h⟩

/-- Process one 16-word block. -/
def processBlock (st : Sha256State) (w16 : List Nat) : Sha256State :=
  let ws := (extendW 48 w16.reverse).reverse
  addStates st (sha256Rounds sha256K ws st)

/-- Group a word list into blocks of 16 words. -/
def toBlocks : List Nat → List (List Nat)
  | w0 :: w1 :: w2 :: w3 :: w4 :: w5 :: w6 :: w7 ::
    w8 :: w9 :: w10 :: w11 :: w12 :: w13 :: w14 :: w15 :: rest =>
    [w0, w1, w2, w3, w4, w5, w6, w7, w8, w9, w10, w11, w12, w13, w14, w15] :: toBlocks rest
  | _ => []

/-- Big-endian bytes of the 64-bit message length. -/
def lenBytes (n : Nat) : List Nat :=
  [n / 2 ^ 56 % 256, n / 2 ^ 48 % 256, n / 2 ^ 40 % 256, n / 2 ^ 32 % 256,
   n / 2 ^ 24 % 256, n / 2 ^ 16 % 256, n / 2 ^ 8 % 256, n % 256]

/-- SHA-256 padding: a 1-bit, zeros, and the bit length. -/
def sha256Pad (msg : List Nat) : List Nat :=
  let l := msg.length
  let zeros := (64 - (l + 9) % 64) % 64
  msg ++ 128 :: List.replicate zeros 0 ++ lenBytes (l * 8)

/-- Big-endian bytes of a 32-bit word. -/
def wordBytes (w : Nat) : List Nat :=
  [w / 2 ^ 24 % 256, w / 2 ^ 16 % 256, w / 2 ^ 8 % 256, w % 256]

/-- The digest bytes of a final hash state. -/
def stateBytes (s : Sha256State) : List Nat :=
  wordBytes s.a ++ wordBytes s.b ++ wordBytes s.c ++ wordBytes s.d ++
  wordBytes s.e ++ wordBytes s.f ++ wordBytes s.g ++ wordBytes s.h

/-- SHA-256 of a byte list, as 32 digest bytes. -/
def sha256 (msg : List Nat) : List Nat :=
  stateBytes ((toBlocks (toWords (sha256Pad msg))).foldl processBlock sha256H0)

/-- Lowercase hexadecimal digit characters. -/
def hexChars : List Char := "0123456789abcdef".data

/-- The lowercase hex digit of `n % 16`. -/
def hexDigit (n : Nat) : Char := hexChars.getD (n % 16) '0'

/-- Two lowercase hex digits of a byte. -/
def byteHex (b : Nat) : List Char := [hexDigit (b / 16), hexDigit b]

/-- Render bytes as a lowercase hex string. -/
def bytesToHex (bs : List Nat) : String := ⟨bs.flatMap byteHex⟩

/-- UTF-8 encoding of one character, as byte values. -/
def utf8Char (c : Char) : List Nat :=
  let n := c.toNat
  if n < 128 then [n]
  else if n < 2048 then [192 + n / 64, 128 + n % 64]
  else if n < 65536 then [224 + n / 4096, 128 + n / 64 % 64, 128 + n % 64]
  else [240 + n / 262144, 128 + n / 4096 % 64, 128 + n / 64 % 64, 128 + n % 64]

/-- UTF-8 encoding of a string, as byte values. -/
def utf8Bytes (s : String) : List Nat := s.data.flatMap utf8Char

/-! ### Plain characters

A character is plain when it needs no JSON string escaping: not a double
quote, not a backslash, not a control character.  All protocol-internal
strings (hex digests, dates, tags) are plain; theorems about
serialization round-trips assume caller-supplied strings are plain. -/

def PlainChar (c : Char) : Bool := c != '"' && c != '\\' && 32 ≤ c.toNat

def plainStr (s : String) : Bool := s.data.all PlainChar

/-! ### The JSON subset used by the protocol

License records and key files are flat JSON objects whose values are
strings, integers, or (for the preseed file's `metadata` field) one
further level of string-valued objects.  The serializer follows Python's
`json.dumps` with `sort_keys=True` and the default separators
`", "` and `": "`; the parser is its inverse and rejects anything else
as "not valid JSON". -/

inductive JVal where
  | jstr (s : String)
  | jnum (n : Int)
  | jobj (fields : List (String × String))
deriving DecidableEq

/-- Lexicographic comparison of character lists by code point. -/
def charsLe : List Char → List Char → Bool
  | [], _ => true
  | _ :: _, [] => false
  | a :: as, b :: bs =>
    if a.toNat < b.toNat then true
    else if b.toNat < a.toNat then false
    else charsLe as bs

/-- Key order used for canonical (sorted-key) serialization. -/
def keyLe (x y : String × JVal) : Prop := charsLe x.1.data y.1.data = true

instance : DecidableRel keyLe := fun x y => inferInstanceAs (Decidable (_ = true))

/-- String order used to sort raw hardware descriptor strings. -/
def strLe (x y : String) : Prop := charsLe x.data y.data = true

instance : DecidableRel strLe := fun x y => inferInstanceAs (Decidable (_ = true))

def charsLe_total : ∀ as bs : List Char, charsLe as bs = true ∨ charsLe bs as = true := by
  intro as
  induction as with
  | nil => intro bs; left; rfl
  | cons a as ih =>
    intro bs
    cases bs with
    | nil => right; rfl
    | cons b bs =>
      by_cases hab : a.toNat < b.toNat
      · left; simp [charsLe, hab]
      · by_cases hba : b.toNat < a.toNat
        · right; simp [charsLe, hba]
        · rcases ih bs with h | h
          · left; simp [charsLe, hab, hba, h]
          · right; simp [charsLe, hab, hba, h]

def charsLe_trans :
    ∀ as bs cs : List Char, charsLe as bs = true → charsLe bs cs = true →
      charsLe as cs = true := by
  intro as
  induction as with
  | nil => intro bs cs _ _; rfl
  | cons a as ih =>
    intro bs cs h1 h2
    cases bs with
    | nil => simp [charsLe] at h1
    | cons b bs =>
      cases cs with
      | nil => simp [charsLe] at h2
      | cons c cs =>
        simp only [charsLe] at h1 h2 ⊢
        split_ifs at h1 h2 ⊢ <;> first | rfl | omega | (exact ih bs cs h1 h2)

instance : IsTotal (String × JVal) keyLe := ⟨fun x y => charsLe_total x.1.data y.1.data⟩

instance : IsTrans (String × JVal) keyLe :=
  ⟨fun _ _ _ h1 h2 => charsLe_trans _ _ _ h1 h2⟩

instance : IsTotal String strLe := ⟨fun x y => charsLe_total x.data y.data⟩

instance : IsTrans String strLe := ⟨fun _ _ _ h1 h2 => charsLe_trans _ _ _ h1 h2⟩

/-! #### Serialization -/

/-- A JSON string literal (no escaping; callers supply plain strings). -/
def dumpStrChars (s : String) : List Char := '"' :: s.data ++ ['"']

/-- Entries of a string-valued object, Python separators. -/
def dumpStrObjEntries : List (String × String) → List Char
  | [] => []
  | [(k, v)] => dumpStrChars k ++ ':' :: ' ' :: dumpStrChars v
  | (k, v) :: rest =>
    dumpStrChars k ++ ':' :: ' ' :: dumpStrChars v ++ ',' :: ' ' :: dumpStrObjEntries rest

/-- Serialize one JSON value. -/
def dumpValChars : JVal → List Char
  | .jstr s => dumpStrChars s
  | .jnum n => (toString n).data
  | .jobj o => '{' :: dumpStrObjEntries o ++ ['}']

/-- Entries of a top-level object, Python separators. -/
def dumpEntriesChars : List (String × JVal) → List Char
  | [] => []
  | [(k, v)] => dumpStrChars k ++ ':' :: ' ' :: dumpValChars v
  | (k, v) :: rest =>
    dumpStrChars k ++ ':' :: ' ' :: dumpValChars v ++ ',' :: ' ' :: dumpEntriesChars rest

/-- Serialize an object in the given entry order. -/
def dumpObj (o : List (String × JVal)) : String := ⟨'{' :: dumpEntriesChars o ++ ['}']⟩

/-- Canonical serialization: stable sorted key order, compact separators
(the convention both generator and verifier must share, spec §3/§9). -/
def canonicalDump (o : List (String × JVal)) : String :=
  dumpObj (List.insertionSort keyLe o)

/-! #### Parsing -/

/-- Read a string literal body up to the closing quote. -/
def parseStringLit (cs : List Char) : Option (String × List Char) :=
  match cs.dropWhile (fun c => c != '"') with
  | '"' :: rest => some (⟨cs.takeWhile (fun c => c != '"')⟩, rest)
  | _ => none

/-- Skip space characters. -/
def skipSp (cs : List Char) : List Char := cs.dropWhile (fun c => c == ' ')

def isDigitCh (c : Char) : Bool := '0' ≤ c && c ≤ '9'

/-- Decimal value of a digit list. -/
def digitsVal (cs : List Char) : Nat := cs.foldl (fun a c => a * 10 + (c.toNat - 48)) 0

/-- Parse an integer literal. -/
def parseIntLit (cs : List Char) : Option (JVal × List Char) :=
  match cs with
  | '-' :: rest =>
    if (rest.takeWhile isDigitCh).isEmpty then none
    else some (.jnum (-(digitsVal (rest.takeWhile isDigitCh) : Int)), rest.dropWhile isDigitCh)
  | _ =>
    if (cs.takeWhile isDigitCh).isEmpty then none
    else some (.jnum (digitsVal (cs.takeWhile isDigitCh)), cs.dropWhile isDigitCh)

/-- Parse the entries of a nested string-valued object (after its `{`). -/
def parseStrEntries : Nat → List Char → Option (List (String × String) × List Char)
  | 0, _ => none
  | fuel + 1, cs =>
    match skipSp cs with
    | '"' :: r =>
      match parseStringLit r with
      | some (k, r1) =>
        match skipSp r1 with
        | ':' :: r2 =>
          match skipSp r2 with
          | '"' :: r3 =>
            match parseStringLit r3 with
            | some (v, r4) =>
              match skipSp r4 with
              | ',' :: r5 =>
                (parseStrEntries fuel r5).map (fun p => ((k, v) :: p.1, p.2))
              | '}' :: r5 => some ([(k, v)], r5)
              | _ => none
            | none => none
          | _ => none
        | _ => none
      | none => none
    | _ => none

/-- Parse a nested string-valued object (after its `{`). -/
def parseStrObj (cs : List Char) : Option (List (String × String) × List Char) :=
  match skipSp cs with
  | '}' :: r => some ([], r)
  | r => parseStrEntries (r.length + 1) r

/-- Parse one JSON value. -/
def parseVal (cs : List Char) : Option (JVal × List Char) :=
  match cs with
  | '"' :: r => (parseStringLit r).map (fun p => (.jstr p.1, p.2))
  | '{' :: r => (parseStrObj r).map (fun p => (.jobj p.1, p.2))
  | _ => parseIntLit cs

/-- Parse the entries of a top-level object (after its `{`). -/
def parseEntries : Nat → List Char → Option (List (String × JVal) × List Char)
  | 0, _ => none
  | fuel + 1, cs =>
    match skipSp cs with
    | '"' :: r =>
      match parseStringLit r with
      | some (k, r1) =>
        match skipSp r1 with
        | ':' :: r2 =>
          match parseVal (skipSp r2) with
          | some (v, r4) =>
            match skipSp r4 with
            | ',' :: r5 =>
              (parseEntries fuel r5).map (fun p => ((k, v) :: p.1, p.2))
            | '}' :: r5 => some ([(k, v)], r5)
            | _ => none
          | none => none
        | _ => none
      | none => none
    | _ => none

/-- Parse a complete JSON object from characters. -/
def jsonParseChars (cs : List Char) : Option (List (String × JVal)) :=
  match skipSp cs with
  | '{' :: r =>
    match skipSp r with
    | '}' :: r2 => if (skipSp r2).isEmpty then some [] else none
    | r' =>
      match parseEntries (r'.length + 1) r' with
      | some (o, rest) => if (skipSp rest).isEmpty then some o else none
      | none => none
  | _ => none

/-- Parse a complete JSON object from a string; `none` models
"not valid JSON". -/
def jsonParse (s : String) : Option (List (String × JVal)) := jsonParseChars s.data

/-- First value bound to a key in an object. -/
def lookupJ (k : String) (o : List (String × JVal)) : Option JVal := o.lookup k

/-- The value of a string field, if the field holds a string. -/
def getStr (k : String) (o : List (String × JVal)) : Option String :=
  match lookupJ k o with
  | some (.jstr s) => some s
  | _ => none

/-! ### Dates

The protocol's date format is `%Y-%m-%d` (`strptime` semantics: exactly
four year digits, one or two month/day digits, real-calendar
validation).  Day arithmetic follows the proleptic Gregorian ordinal
(Python's `date.toordinal`). -/

structure Date where
  year : Nat
  month : Nat
  day : Nat
deriving DecidableEq

def isLeapYear (y : Nat) : Bool := y % 4 == 0 && (y % 100 != 0 || y % 400 == 0)

def daysInMonth (y m : Nat) : Nat :=
  if m = 2 then (if isLeapYear y then 29 else 28)
  else if m = 4 ∨ m = 6 ∨ m = 9 ∨ m = 11 then 30
  else 31

/-- A calendar-valid date in the four-digit-year range. -/
def validDate (d : Date) : Bool :=
  1 ≤ d.year && d.year ≤ 9999 && 1 ≤ d.month && d.month ≤ 12 &&
  1 ≤ d.day && d.day ≤ daysInMonth d.year d.month

/-- Split a character list at a separator. -/
def splitOnChar (sep : Char) : List Char → List (List Char)
  | [] => [[]]
  | c :: rest =>
    if c == sep then [] :: splitOnChar sep rest
    else
      match splitOnChar sep rest with
      | h :: t => (c :: h) :: t
      | [] => [[c]]

/-- Parse a `%Y-%m-%d` date (`strptime` semantics). -/
def parseDate (s : String) : Option Date :=
  match splitOnChar '-' s.data with
  | [ys, ms, ds] =>
    if ys.length = 4 && ys.all isDigitCh &&
       (ms.length = 1 || ms.length = 2) && ms.all isDigitCh &&
       (ds.length = 1 || ds.length = 2) && ds.all isDigitCh then
      let y := digitsVal ys
      let m := digitsVal ms
      let d := digitsVal ds
      if 1 ≤ y && 1 ≤ m && m ≤ 12 && 1 ≤ d && d ≤ daysInMonth y m then
        some ⟨y, m, d⟩
      else none
    else none
  | _ => none

def digitChars : List Char := "0123456789".data

def digitChar (n : Nat) : Char := digitChars.getD (n % 10) '0'

/-- Format a date as zero-padded `YYYY-MM-DD` (`strftime` semantics). -/
def formatDate (d : Date) : String :=
  ⟨[digitChar (d.year / 1000), digitChar (d.year / 100), digitChar (d.year / 10),
    digitChar d.year, '-', digitChar (d.month / 10), digitChar d.month, '-',
    digitChar (d.day / 10), digitChar d.day]⟩

/-- Days before the first of month `m` in year `y`. -/
def daysBeforeMonth (y m : Nat) : Nat :=
  (List.range (m - 1)).foldl (fun a i => a + daysInMonth y (i + 1)) 0

/-- Proleptic Gregorian ordinal: day 1 is 0001-01-01 (Python
`date.toordinal`). -/
def toOrdinal (d : Date) : Nat :=
  365 * (d.year - 1) + (d.year - 1) / 4 - (d.year - 1) / 100 + (d.year - 1) / 400 +
  daysBeforeMonth d.year d.month + d.day

/-! ### CryptoManager -/

namespace CryptoManager

/-- Modelled from the spec: `CryptoManager.hash_data` (module
`crypto_utils.py` is absent from the sources) — SHA-256 of the UTF-8
bytes, as 64 lowercase hex characters. -/
def hash_data (s : String) : String := bytesToHex (sha256 (utf8Bytes s))

/-- Fixed-width (6 hex digit) encoding of one character's code point. -/
def hexEncChar (c : Char) : List Char :=
  [hexDigit (c.toNat / 1048576), hexDigit (c.toNat / 65536), hexDigit (c.toNat / 4096),
   hexDigit (c.toNat / 256), hexDigit (c.toNat / 16), hexDigit c.toNat]

/-- Injective plain encoding of a string, used inside modelled
signatures. -/
def hexEncode (s : String) : String := ⟨s.data.flatMap hexEncChar⟩

def privTag : String := "PRIVKEY:"

def pubTag : String := "PUBKEY:"

/-- Modelled from the spec: `CryptoManager.generate_key_pair` — ECDSA
P-256 key generation, idealized as a tagged randomness seed; both halves
are returned as text (the real code returns base64(PEM)). -/
def generate_key_pair (seed : String) : String × String :=
  (privTag ++ seed, pubTag ++ seed)

/-- Modelled from the spec: `CryptoManager.load_public_key` — decodes the
public key text, failing (`CryptoError`) on malformed input. -/
def load_public_key (k : String) : Option String :=
  if pubTag.data.isPrefixOf k.data then some ⟨k.data.drop 7⟩ else none

/-- Modelled from the spec: `CryptoManager.load_private_key`. -/
def load_private_key (k : String) : Option String :=
  if privTag.data.isPrefixOf k.data then some ⟨k.data.drop 8⟩ else none

/-- Modelled from the spec: `CryptoManager.sign_data` — an ideal
signature: an injective encoding of the signing key and the signed
message.  Fails (`CryptoError`) on a malformed private key. -/
def sign_data (data key : String) : Except String String :=
  match load_private_key key with
  | none => .error "Invalid private key"
  | some seed => .ok ("SIG|" ++ privTag ++ seed ++ "|" ++ hexEncode data)

/-- Modelled from the spec: `CryptoManager.verify_signature` — returns a
boolean, throwing (`CryptoError`) only for a malformed public key, never
for a wrong-but-well-formed signature. -/
def verify_signature (data sig pubkey : String) : Except String Bool :=
  match load_public_key pubkey with
  | none => .error "Invalid public key"
  | some seed => .ok (sig == "SIG|" ++ privTag ++ seed ++ "|" ++ hexEncode data)

/-- The preseed commitment message: the five bound inputs joined by
`"|"`. -/
def preseedMsg (preseed hw_fingerprint fingerprint_type expiry component_name : String) :
    String :=
  preseed ++ "|" ++ hw_fingerprint ++ "|" ++ fingerprint_type ++ "|" ++ expiry ++ "|" ++
    component_name

/-- Modelled from the spec: `CryptoManager.create_preseed_hash` —
`hash_data` of the joined five-tuple. -/
def create_preseed_hash (preseed hw_fingerprint fingerprint_type expiry : String)
    (component_name : String := "") : String :=
  hash_data (preseedMsg preseed hw_fingerprint fingerprint_type expiry component_name)

end CryptoManager

/-! ### HardwareFingerprint -/

/-- The observable hardware state of one machine: raw descriptor values
as the per-class collectors return them. -/
structure Machine where
  mac_addresses : List String
  disk_info : List String
  cpu_info : List (String × String)
  system_info : List (String × String)

namespace HardwareFingerprint

/-- Sort raw descriptor strings and join them canonically, so collection
order never changes the fingerprint (spec §4.1). -/
def canonJoin (l : List String) : String :=
  String.intercalate "," (List.insertionSort strLe l)

/-- Canonical item strings of a descriptor mapping. -/
def dictItems (d : List (String × String)) : List String :=
  d.map (fun kv => kv.1 ++ ":" ++ kv.2)

def macCanon (m : Machine) : String := canonJoin m.mac_addresses

def diskCanon (m : Machine) : String := canonJoin m.disk_info

def cpuCanon (m : Machine) : String := canonJoin (dictItems m.cpu_info)

def sysCanon (m : Machine) : String := canonJoin (dictItems m.system_info)

def available_types : List String := ["mac", "disk", "cpu", "system", "composite"]

/-- Modelled from the spec: `HardwareFingerprint.get_fingerprint`
(module `hardware_fingerprint.py` is absent from the sources) — the
per-class digest; `composite` hashes the concatenated canonical raw
inputs of the other four classes in a fixed field order, not their
sub-digests.  `none` models `ValueError` for an unsupported type. -/
def get_fingerprint_raw (m : Machine) : String → Option String
  | "mac" => some (CryptoManager.hash_data (macCanon m))
  | "disk" => some (CryptoManager.hash_data (diskCanon m))
  | "cpu" => some (CryptoManager.hash_data (cpuCanon m))
  | "system" => some (CryptoManager.hash_data (sysCanon m))
  | "composite" =>
    some (CryptoManager.hash_data
      (macCanon m ++ "|" ++ diskCanon m ++ "|" ++ cpuCanon m ++ "|" ++ sysCanon m))
  | _ => none

/-- The in-process fingerprint cache (type ↦ digest). -/
abbrev Cache := List (String × String)

/-- Modelled from the spec: the cache-clear operation. -/
def clear_cache : Cache := []

/-- Modelled from the spec: `get_fingerprint` with its read-through
cache, state passed explicitly. -/
def get_fingerprint (m : Machine) (cache : Cache) (t : String) :
    Option (String × Cache) :=
  match List.lookup t (cache : List (String × String)) with
  | some v => some (v, cache)
  | none => (get_fingerprint_raw m t).map (fun v => (v, (t, v) :: cache))

/-- A cache is consistent when every entry holds the true digest. -/
def CacheOK (m : Machine) (cache : Cache) : Prop :=
  ∀ kv ∈ (cache : List (String × String)), get_fingerprint_raw m kv.1 = some kv.2

end HardwareFingerprint

/-! ### PreseedGenerator -/

inductive PreseedError where
  | notFound
  | formatError (msg : String)
deriving DecidableEq

namespace PreseedGenerator

/-- Canonical JSON of a string-valued metadata mapping (sorted keys,
Python separators). -/
def canonical_json (m : List (String × String)) : String :=
  canonicalDump (m.map (fun kv => (kv.1, JVal.jstr kv.2)))

/-- The metadata object of a parsed preseed file, `{}` when absent. -/
def metaOf (o : List (String × JVal)) : List (String × String) :=
  match lookupJ "metadata" o with
  | some (.jobj mo) => mo
  | _ => []

/-- The format version of a parsed preseed file (`"1.0"` when absent). -/
def fvOf (o : List (String × JVal)) : String :=
  match lookupJ "format_version" o with
  | some (.jstr v) => v
  | _ => "1.0"

/-- Modelled from the spec: `PreseedGenerator.load_preseed_from_file`
(module `preseed_generator.py` is absent from the sources) — the file's
content is passed explicitly (`none` = missing file).  Returns
`hash_data(secret_content ++ canonical_json(metadata or {}) ++
format_version)`, never the raw secret. -/
def load_preseed_from_file (content : Option String) : Except PreseedError String :=
  match content with
  | none => .error .notFound
  | some text =>
    match jsonParse text with
    | none => .error (.formatError "Invalid JSON in preseed file")
    | some obj =>
      match lookupJ "secret_content" obj with
      | some (.jstr secret) =>
        .ok (CryptoManager.hash_data (secret ++ canonical_json (metaOf obj) ++ fvOf obj))
      | _ => .error (.formatError "Preseed file missing secret_content field")

end PreseedGenerator

/-! ### License records -/

/-- The error taxonomy of the verification path (spec §7). -/
inductive LicenseError where
  | invalid (msg : String)
  | expired (msg : String)
  | hwMismatch (msg : String)
  | cryptoError (msg : String)
  | validation (msg : String)
deriving DecidableEq

/-- The required license-record fields, in the order the verifier checks
their presence. -/
def requiredFields : List String :=
  ["version", "hw_type", "hw_info", "expiry", "issued", "preseed_hash",
   "component_name", "signature"]

/-- Python's `{**base, **additional}` flat merge: `additional` overrides
duplicate keys. -/
def mergeAdd (base add : List (String × JVal)) : List (String × JVal) :=
  base.filter (fun kv => !(add.any (fun a => a.1 == kv.1))) ++ add

structure LicenseGenerator where
  private_key_b64 : String
  preseed : String

structure LicenseManager where
  public_key_b64 : String
  preseed : String

/-- The seven protocol fields of an unsigned license record. -/
def baseFields (preseed : String) (today : Date)
    (expiry_date fingerprint_type hw_info component_name : String) :
    List (String × JVal) :=
  [("version", .jstr "1.0"),
   ("hw_type", .jstr fingerprint_type),
   ("hw_info", .jstr hw_info),
   ("expiry", .jstr expiry_date),
   ("issued", .jstr (formatDate today)),
   ("preseed_hash", .jstr (CryptoManager.create_preseed_hash preseed hw_info
      fingerprint_type expiry_date component_name)),
   ("component_name", .jstr component_name)]

namespace LicenseGenerator

/-- The unsigned license record as a canonically sorted object. -/
def licenseRecord (gen : LicenseGenerator) (today : Date)
    (expiry_date fingerprint_type hw_info component_name : String)
    (additional_data : List (String × JVal)) : List (String × JVal) :=
  List.insertionSort keyLe (mergeAdd
    (baseFields gen.preseed today expiry_date fingerprint_type hw_info component_name)
    additional_data)

/-- Modelled from the spec: `LicenseGenerator.generate_license` (module
`license_generator.py` is absent from the sources) — validates the
expiry format and fingerprint type, resolves `hw_info` (override or the
current machine), computes the preseed commitment, canonically
serializes, signs, and emits single-line JSON text. -/
def generate_license (gen : LicenseGenerator) (m : Machine) (today : Date)
    (expiry_date fingerprint_type : String)
    (additional_data : List (String × JVal) := [])
    (component_name : String := "") (hw_override : Option String := none) :
    Except LicenseError String :=
  match parseDate expiry_date with
  | none => .error (.validation "Expiry date must be in YYYY-MM-DD format")
  | some _ =>
    match (match hw_override with
           | some h => some h
           | none => HardwareFingerprint.get_fingerprint_raw m fingerprint_type) with
    | none => .error (.validation "Invalid fingerprint type")
    | some hw_info =>
      let record := licenseRecord gen today expiry_date fingerprint_type hw_info
        component_name additional_data
      match CryptoManager.sign_data (dumpObj record) gen.private_key_b64 with
      | .error msg => .error (.cryptoError msg)
      | .ok sig =>
        .ok (dumpObj (List.orderedInsert keyLe ("signature", .jstr sig) record))

end LicenseGenerator

namespace LicenseManager

/-- Modelled from the spec: steps 1–4 of the verification state machine
(parse, required fields, version, date formats), shared by
`verify_license` and `get_days_until_expiry`. -/
def parse_and_validate (license_string : String) :
    Except LicenseError (List (String × JVal) × Date × Date) :=
  match jsonParse license_string with
  | none => .error (.invalid "not valid JSON")
  | some data =>
    match requiredFields.find? (fun f => (lookupJ f data).isNone) with
    | some f => .error (.invalid ("Missing required field: " ++ f))
    | none =>
      if lookupJ "version" data = some (.jstr "1.0") then
        match (getStr "expiry" data).bind parseDate with
        | none => .error (.invalid "Invalid date format")
        | some expiry =>
          match (getStr "issued" data).bind parseDate with
          | none => .error (.invalid "Invalid date format")
          | some issued => .ok (data, expiry, issued)
      else .error (.invalid "Unsupported license version")

/-- Modelled from the spec: `LicenseManager.verify_license` (module
`license_manager.py` is absent from the sources) — the sequential
verification state machine: parse → structure → version → dates →
signature → preseed → (skippable) expiry → (skippable) hardware. -/
def verify_license (mgr : LicenseManager) (m : Machine) (today : Date)
    (license_string : String) (check_hardware : Bool := true)
    (check_expiry : Bool := true) : Except LicenseError (List (String × JVal)) :=
  match parse_and_validate license_string with
  | .error e => .error e
  | .ok (data, expiry, _) =>
    match getStr "signature" data with
    | none => .error (.invalid "signature is invalid")
    | some sig =>
      let payload := dumpObj (List.insertionSort keyLe
        (data.filter (fun kv => kv.1 != "signature")))
      match CryptoManager.verify_signature payload sig mgr.public_key_b64 with
      | .error msg => .error (.cryptoError msg)
      | .ok false => .error (.invalid "signature is invalid")
      | .ok true =>
        let hw_info := (getStr "hw_info" data).getD ""
        let hw_type := (getStr "hw_type" data).getD ""
        let expiry_str := (getStr "expiry" data).getD ""
        let comp := (getStr "component_name" data).getD ""
        let expected := CryptoManager.create_preseed_hash mgr.preseed hw_info hw_type
          expiry_str comp
        if lookupJ "preseed_hash" data = some (.jstr expected) then
          if check_expiry && decide (toOrdinal expiry < toOrdinal today) then
            .error (.expired "License has expired")
          else
            if check_hardware then
              match HardwareFingerprint.get_fingerprint_raw m hw_type with
              | none => .error (.invalid "Unsupported fingerprint type")
              | some current =>
                if current = hw_info then .ok data
                else .error (.hwMismatch "License hardware fingerprint does not match")
            else .ok data
        else .error (.invalid "preseed hash is invalid")

/-- Modelled from the spec: `LicenseManager.get_days_until_expiry` — the
signed day difference, or `None` when the license cannot be parsed or
structurally validated. -/
def get_days_until_expiry (_mgr : LicenseManager) (today : Date)
    (license_string : String) : Option Int :=
  match parse_and_validate license_string with
  | .error _ => none
  | .ok (_, expiry, _) => some ((toOrdinal expiry : Int) - (toOrdinal today : Int))

end LicenseManager

/-! ### Auto-discovery -/

/-- Whether `pat` occurs inside `text`. -/
def hasInfix (pat : List Char) : List Char → Bool
  | [] => pat.isEmpty
  | c :: rest => pat.isPrefixOf (c :: rest) || hasInfix pat rest

/-- File-name conventions of the auto-discovery scan (license-like and
key-like names; the tests use `license*.txt` / `keys.json`). -/
def isLicenseFileName (name : String) : Bool := hasInfix "license".data name.data

def isKeyFileName (name : String) : Bool := hasInfix "key".data name.data

/-- A line counts as a license candidate when it is not blank. -/
def isBlankLine (s : String) : Bool := s.data.all (fun c => c == ' ' || c == '\t' || c == '\r')

/-- The non-blank lines of a file's content. -/
def licenseLines (content : String) : List String :=
  ((splitOnChar '\n' content.data).map (fun l => (⟨l⟩ : String))).filter
    (fun l => !isBlankLine l)

/-- Extract `public_key`/`preseed` from a JSON key file. -/
def extractKeyInfo (content : String) : Option (String × String) :=
  match jsonParse content with
  | none => none
  | some obj =>
    match getStr "public_key" obj, getStr "preseed" obj with
    | some pk, some pre => some (pk, pre)
    | _, _ => none

/-- The structured result of `auto_verify_licenses` (spec §4.5). -/
structure AutoVerifyResult where
  error : Option String
  license_files_found : List String
  key_files_found : List String
  valid_licenses : List (List (String × JVal))
  total_licenses : Nat
  valid_count : Nat
  invalid_count : Nat
  expired_count : Nat
  hardware_mismatch_count : Nat

def emptyAutoResult (err : String) : AutoVerifyResult :=
  ⟨some err, [], [], [], 0, 0, 0, 0, 0⟩

def isExpiredErr : Except LicenseError (List (String × JVal)) → Bool
  | .error (.expired _) => true
  | _ => false

def isHwErr : Except LicenseError (List (String × JVal)) → Bool
  | .error (.hwMismatch _) => true
  | _ => false

/-- Modelled from the spec: `LicenseManager.auto_verify_licenses` — the
directory is passed explicitly as (file name, content) pairs.  Scans for
license-like and key-like files, treats every non-blank line of every
license-like file as one candidate, verifies each against the first
usable key file, and never throws: missing inputs are reported through
the result's `error` field. -/
def auto_verify_licenses (files : List (String × String)) (m : Machine) (today : Date)
    (check_hardware : Bool := true) (check_expiry : Bool := true) : AutoVerifyResult :=
  let licFiles := files.filter (fun f => isLicenseFileName f.1)
  let keyFiles := files.filter (fun f => isKeyFileName f.1)
  if licFiles.isEmpty then emptyAutoResult "No license files found"
  else if keyFiles.isEmpty then emptyAutoResult "No key files found"
  else
    match keyFiles.findSome? (fun f => extractKeyInfo f.2) with
    | none => emptyAutoResult "No key files found"
    | some (pub, pre) =>
      let mgr : LicenseManager := ⟨pub, pre⟩
      let candidates := licFiles.flatMap (fun f => licenseLines f.2)
      let results := candidates.map
        (fun line => mgr.verify_license m today line check_hardware check_expiry)
      { error := none
        license_files_found := licFiles.map (fun f => f.1)
        key_files_found := keyFiles.map (fun f => f.1)
        valid_licenses := results.filterMap (fun r => r.toOption)
        total_licenses := candidates.length
        valid_count := results.countP (fun r => r.toOption.isSome)
        invalid_count := results.countP (fun r => r.toOption.isNone)
        expired_count := results.countP isExpiredErr
        hardware_mismatch_count := results.countP isHwErr }

/-- Hex value of one lowercase hex digit character. -/
def hexCharVal (c : Char) : Nat := (hexChars.indexOf c) % 16

/-- Decode a fixed-width hex block. -/
def decodeHex6 (l : List Char) : Nat := l.foldl (fun a c => a * 16 + hexCharVal c) 0

/-- All characters of a digest are lowercase hex digits. -/
def isLowerHex (s : String) : Bool := s.data.all (fun c => decide (c ∈ hexChars))

/-- Well-formedness for round-tripping: all keys plain, all values plain
string literals. -/
def PlainEntries (o : List (String × JVal)) : Prop :=
  ∀ kv ∈ o, plainStr kv.1 = true ∧ ∃ s, kv.2 = JVal.jstr s ∧ plainStr s = true

/-! ### The generated license, step by step

These lemmas characterize a license produced by `generate_license`
through each stage of the verification state machine; the round-trip,
trust-anchor and expiry claims all instantiate them. -/

/-- The ideal signature value. -/
def mkSig (seed payload : String) : String :=
  "SIG|" ++ CryptoManager.privTag ++ seed ++ "|" ++ CryptoManager.hexEncode payload

/-- A generator holding the private half of the key pair derived from
`seed`. -/
def genOf (seed preseed : String) : LicenseGenerator :=
  ⟨CryptoManager.privTag ++ seed, preseed⟩

/-- A manager holding the public half of the key pair derived from
`seed`. -/
def mgrOf (seed preseed : String) : LicenseManager :=
  ⟨CryptoManager.pubTag ++ seed, preseed⟩

/-- The signed record emitted by `generate_license`. -/
def signedRecord (seed preseed : String) (today : Date)
    (expiry ftype hw comp : String) (add : List (String × JVal)) :
    List (String × JVal) :=
  List.orderedInsert keyLe
    ("signature", .jstr (mkSig seed (dumpObj (LicenseGenerator.licenseRecord
      (genOf seed preseed) today expiry ftype hw comp add))))
    (LicenseGenerator.licenseRecord (genOf seed preseed) today expiry ftype hw comp add)

/-! ### Support for the claim statements -/

/-- Whether `pat` occurs as a substring of `s` ("message containing"). -/
def containsStr (s pat : String) : Prop := pat.data <:+: s.data

instance : DecidableEq (Except String Bool) := fun a b =>
  match a, b with
  | .error x, .error y =>
    if h : x = y then isTrue (by rw [h]) else isFalse (fun he => h (by injection he))
  | .ok x, .ok y =>
    if h : x = y then isTrue (by rw [h]) else isFalse (fun he => h (by injection he))
  | .error _, .ok _ => isFalse (fun he => Except.noConfusion he)
  | .ok _, .error _ => isFalse (fun he => Except.noConfusion he)

instance : DecidableEq (Except PreseedError String) := fun a b =>
  match a, b with
  | .error x, .error y =>
    if h : x = y then isTrue (by rw [h]) else isFalse (fun he => h (by injection he))
  | .ok x, .ok y =>
    if h : x = y then isTrue (by rw [h]) else isFalse (fun he => h (by injection he))
  | .error _, .ok _ => isFalse (fun he => Except.noConfusion he)
  | .ok _, .error _ => isFalse (fun he => Except.noConfusion he)

instance : DecidableEq (Except LicenseError (List (String × JVal))) := fun a b =>
  match a, b with
  | .error x, .error y =>
    if h : x = y then isTrue (by rw [h]) else isFalse (fun he => h (by injection he))
  | .ok x, .ok y =>
    if h : x = y then isTrue (by rw [h]) else isFalse (fun he => h (by injection he))
  | .error _, .ok _ => isFalse (fun he => Except.noConfusion he)
  | .ok _, .error _ => isFalse (fun he => Except.noConfusion he)

/-- The first preseed-file fixture of the metadata-binding test. -/
def c8file1 : List (String × JVal) :=
  [("secret_content", .jstr "same_secret_content_for_both"),
   ("format_version", .jstr "1.0"),
   ("metadata", .jobj [("project", "Project1")])]

/-- The second preseed-file fixture, same secret, different metadata. -/
def c8file2 : List (String × JVal) :=
  [("secret_content", .jstr "same_secret_content_for_both"),
   ("format_version", .jstr "1.0"),
   ("metadata", .jobj [("project", "Project2")])]

/-- The structural license fixture used for day-difference anchors. -/
def anchorLicense (e : String) : String :=
  dumpObj [("version", .jstr "1.0"), ("hw_type", .jstr "mac"), ("hw_info", .jstr "t"),
    ("expiry", .jstr e), ("issued", .jstr "2025-01-01"), ("preseed_hash", .jstr "t"),
    ("component_name", .jstr "t"), ("signature", .jstr "t")]

/-! ### Format facts about SHA-256 digests -/

theorem hexDigit_mem_hexChars (n : Nat) : hexDigit n ∈ hexChars := by
  have h : n % 16 < hexChars.length := by
    have := Nat.mod_lt n (y := 16) (by omega)
    simpa [hexChars] using this
  rw [hexDigit, List.getD_eq_getElem hexChars '0' h]
  exact List.getElem_mem h

theorem length_byteHex (b : Nat) : (byteHex b).length = 2 := rfl

theorem length_stateBytes (s : Sha256State) : (stateBytes s).length = 32 := by
  simp [stateBytes, wordBytes]

theorem length_sha256 (msg : List Nat) : (sha256 msg).length = 32 :=
  length_stateBytes _

theorem length_bytesToHex (bs : List Nat) : (bytesToHex bs).length = 2 * bs.length := by
  unfold bytesToHex
  rw [String.length]
  induction bs with
  | nil => rfl
  | cons b rest ih => simp_all [List.flatMap_cons, length_byteHex]; omega

theorem mem_bytesToHex_hex {bs : List Nat} {c : Char} (h : c ∈ (bytesToHex bs).data) :
    c ∈ hexChars := by
  unfold bytesToHex at h
  simp only [List.mem_flatMap] at h
  obtain ⟨b, _, hc⟩ := h
  simp only [byteHex, List.mem_cons, List.not_mem_nil, or_false] at hc
  rcases hc with h1 | h1 <;> exact h1 ▸ hexDigit_mem_hexChars _

theorem plainStr_append {s t : String} (hs : plainStr s = true) (ht : plainStr t = true) :
    plainStr (s ++ t) = true := by
  simp only [plainStr, String.data_append, List.all_append, Bool.and_eq_true] at *
  exact ⟨hs, ht⟩

theorem hexChars_plain : ∀ c ∈ hexChars, PlainChar c = true := by decide

theorem plainStr_bytesToHex (bs : List Nat) : plainStr (bytesToHex bs) = true := by
  simp only [plainStr, List.all_eq_true]
  intro c hc
  exact hexChars_plain c (mem_bytesToHex_hex hc)

theorem toOrdinal_epoch : toOrdinal ⟨1, 1, 1⟩ = 1 := by decide

theorem parseDate_formatDate {d : Date} (h : validDate d = true) :
    parseDate (formatDate d) = some d := by
  simp only [validDate, Bool.and_eq_true, decide_eq_true_eq] at h
  obtain ⟨⟨⟨⟨⟨hy1, hy2⟩, hm1⟩, hm2⟩, hd1⟩, hd2⟩ := h
  have hybound : d.year < 10000 := by omega
  have hmb : d.month < 100 := by omega
  have hdmb : daysInMonth d.year d.month ≤ 31 := by
    unfold daysInMonth
    split_ifs <;> simp_all <;> omega
  have hdb : d.day < 100 := by omega
  obtain ⟨y, m, dd⟩ := d
  simp only at *
  have expand : ∀ n : Nat, n < 10 → digitChar n = digitChars.getD n '0' := by
    intro n hn
    simp [digitChar, Nat.mod_eq_of_lt hn]
  unfold formatDate parseDate
  simp only
  have hdig : ∀ n : Nat, isDigitCh (digitChar n) = true ∧ (digitChar n).toNat - 48 = n % 10 := by
    intro n
    have h10 : n % 10 < 10 := Nat.mod_lt _ (by omega)
    have : ∀ k, k < 10 → isDigitCh (digitChars.getD k '0') = true ∧
        (digitChars.getD k '0').toNat - 48 = k := by decide
    have h2 := this (n % 10) h10
    simpa [digitChar] using h2
  have hsplit :
      splitOnChar '-' [digitChar (y / 1000), digitChar (y / 100), digitChar (y / 10),
        digitChar y, '-', digitChar (m / 10), digitChar m, '-',
        digitChar (dd / 10), digitChar dd] =
      [[digitChar (y / 1000), digitChar (y / 100), digitChar (y / 10), digitChar y],
       [digitChar (m / 10), digitChar m], [digitChar (dd / 10), digitChar dd]] := by
    have hnd : ∀ n : Nat, (digitChar n == '-') = false := by
      intro n
      have h10 : n % 10 < 10 := Nat.mod_lt _ (by omega)
      have : ∀ k, k < 10 → (digitChars.getD k '0' == '-') = false := by decide
      simpa [digitChar] using this (n % 10) h10
    simp [splitOnChar, hnd]
  rw [hsplit]
  simp only [List.length_cons, List.length_nil, List.all_cons, List.all_nil,
    (hdig _).1, Bool.and_true, Bool.true_and]
  norm_num
  have hval4 : digitsVal [digitChar (y / 1000), digitChar (y / 100), digitChar (y / 10),
      digitChar y] = y := by
    simp only [digitsVal, List.foldl_cons, List.foldl_nil, (hdig _).2]
    omega
  have hval2m : digitsVal [digitChar (m / 10), digitChar m] = m := by
    simp only [digitsVal, List.foldl_cons, List.foldl_nil, (hdig _).2]
    omega
  have hval2d : digitsVal [digitChar (dd / 10), digitChar dd] = dd := by
    simp only [digitsVal, List.foldl_cons, List.foldl_nil, (hdig _).2]
    omega
  rw [hval4, hval2m, hval2d]
  have hcond : (1 ≤ y && 1 ≤ m && m ≤ 12 && 1 ≤ dd && dd ≤ daysInMonth y m) = true := by
    simp only [Bool.and_eq_true, decide_eq_true_eq]
    omega
  simp [hcond]
  omega

/-! ### String and encoding lemmas -/

theorem strExt {s t : String} (h : s.data = t.data) : s = t := by
  cases s; cases t; simp only at h; rw [h]

theorem strCancelLeft {a b c : String} (h : a ++ b = a ++ c) : b = c := by
  apply strExt
  have hd : a.data ++ b.data = a.data ++ c.data := by
    rw [← String.data_append, ← String.data_append, h]
  exact List.append_cancel_left hd

theorem strCancelRight {a b c : String} (h : a ++ c = b ++ c) : a = b := by
  apply strExt
  have hd : a.data ++ c.data = b.data ++ c.data := by
    rw [← String.data_append, ← String.data_append, h]
  exact List.append_cancel_right hd

theorem hexCharVal_hexDigit (n : Nat) : hexCharVal (hexDigit n) = n % 16 := by
  have h10 : n % 16 < 16 := Nat.mod_lt _ (by omega)
  have key : ∀ k, k < 16 → hexCharVal (hexChars.getD k '0') = k := by decide
  simpa [hexDigit] using key (n % 16) h10

theorem char_toNat_lt (c : Char) : c.toNat < 1114112 := by
  have hv := c.valid
  have he : c.toNat = c.val.toNat := rfl
  rcases hv with h | ⟨_, h2⟩
  · have h1 : c.val.toNat < 55296 := h
    omega
  · have h1 : c.val.toNat < 1114112 := h2
    omega

theorem decodeHex6_hexEncChar (c : Char) : decodeHex6 (CryptoManager.hexEncChar c) = c.toNat := by
  have hlt : c.toNat < 1114112 := char_toNat_lt c
  simp only [CryptoManager.hexEncChar, decodeHex6, List.foldl_cons, List.foldl_nil,
    hexCharVal_hexDigit]
  omega

theorem length_hexEncChar (c : Char) : (CryptoManager.hexEncChar c).length = 6 := rfl

theorem flatMap_hexEncChar_inj : ∀ as bs : List Char,
    as.flatMap CryptoManager.hexEncChar = bs.flatMap CryptoManager.hexEncChar → as = bs := by
  intro as
  induction as with
  | nil =>
    intro bs hd
    cases bs with
    | nil => rfl
    | cons b bs2 =>
      exfalso
      simp only [List.flatMap_nil, List.flatMap_cons] at hd
      have hlen := congrArg List.length hd
      rw [List.length_nil, List.length_append, length_hexEncChar] at hlen
      omega
  | cons a as2 ih =>
    intro bs hd
    cases bs with
    | nil =>
      exfalso
      simp only [List.flatMap_nil, List.flatMap_cons] at hd
      have hlen := congrArg List.length hd
      rw [List.length_nil, List.length_append, length_hexEncChar] at hlen
      omega
    | cons b bs2 =>
      simp only [List.flatMap_cons] at hd
      have hsplit := List.append_inj hd (by rw [length_hexEncChar, length_hexEncChar])
      have hhead : a = b := by
        have hdec := congrArg decodeHex6 hsplit.1
        rw [decodeHex6_hexEncChar, decodeHex6_hexEncChar] at hdec
        exact Char.eq_of_val_eq (UInt32.toNat.inj hdec)
      rw [hhead, ih bs2 hsplit.2]

theorem hexEncode_inj {s t : String} (h : CryptoManager.hexEncode s = CryptoManager.hexEncode t) :
    s = t := by
  apply strExt
  apply flatMap_hexEncChar_inj
  have := congrArg String.data h
  simpa [CryptoManager.hexEncode] using this

theorem plainStr_hexEncode (s : String) : plainStr (CryptoManager.hexEncode s) = true := by
  simp only [plainStr, CryptoManager.hexEncode, List.all_eq_true]
  intro c hc
  simp only [List.mem_flatMap] at hc
  obtain ⟨b, _, hcmem⟩ := hc
  apply hexChars_plain
  simp only [CryptoManager.hexEncChar, List.mem_cons, List.not_mem_nil, or_false] at hcmem
  rcases hcmem with h | h | h | h | h | h <;> exact h ▸ hexDigit_mem_hexChars _

theorem plainStr_hash_data (s : String) : plainStr (CryptoManager.hash_data s) = true :=
  plainStr_bytesToHex _

theorem length_hash_data (s : String) : (CryptoManager.hash_data s).length = 64 := by
  rw [CryptoManager.hash_data, length_bytesToHex, length_sha256]

theorem isLowerHex_hash_data (s : String) : isLowerHex (CryptoManager.hash_data s) = true := by
  simp only [isLowerHex, List.all_eq_true, decide_eq_true_eq]
  intro c hc
  exact mem_bytesToHex_hex hc

theorem load_public_key_tagged (seed : String) :
    CryptoManager.load_public_key (CryptoManager.pubTag ++ seed) = some seed := by
  unfold CryptoManager.load_public_key
  have hp : CryptoManager.pubTag.data.isPrefixOf (CryptoManager.pubTag ++ seed).data = true := by
    simp [String.data_append, CryptoManager.pubTag, List.isPrefixOf]
  rw [if_pos hp]
  congr 1

theorem load_private_key_tagged (seed : String) :
    CryptoManager.load_private_key (CryptoManager.privTag ++ seed) = some seed := by
  unfold CryptoManager.load_private_key
  have hp : CryptoManager.privTag.data.isPrefixOf (CryptoManager.privTag ++ seed).data = true := by
    simp [String.data_append, CryptoManager.privTag, List.isPrefixOf]
  rw [if_pos hp]
  congr 1

theorem sign_data_tagged (data seed : String) :
    CryptoManager.sign_data data (CryptoManager.privTag ++ seed) =
      .ok ("SIG|" ++ CryptoManager.privTag ++ seed ++ "|" ++ CryptoManager.hexEncode data) := by
  rw [CryptoManager.sign_data, load_private_key_tagged]

theorem verify_signature_tagged (data sig seed : String) :
    CryptoManager.verify_signature data sig (CryptoManager.pubTag ++ seed) =
      .ok (sig == "SIG|" ++ CryptoManager.privTag ++ seed ++ "|" ++
        CryptoManager.hexEncode data) := by
  rw [CryptoManager.verify_signature, load_public_key_tagged]

/-- Two ideal signatures agree only when both the signing seed and the
signed message agree. -/
theorem sig_encoding_inj {s1 s2 d1 d2 : String}
    (h : ("SIG|" ++ CryptoManager.privTag ++ s1 ++ "|" ++ CryptoManager.hexEncode d1 : String) =
      "SIG|" ++ CryptoManager.privTag ++ s2 ++ "|" ++ CryptoManager.hexEncode d2)
    (hd : d1 = d2) : s1 = s2 := by
  subst hd
  have h1 : ("SIG|" ++ CryptoManager.privTag : String) ++
      (s1 ++ ("|" ++ CryptoManager.hexEncode d1)) =
      ("SIG|" ++ CryptoManager.privTag) ++ (s2 ++ ("|" ++ CryptoManager.hexEncode d1)) := by
    have e : ∀ x : String, ("SIG|" ++ CryptoManager.privTag : String) ++
        (x ++ ("|" ++ CryptoManager.hexEncode d1)) =
        "SIG|" ++ CryptoManager.privTag ++ x ++ "|" ++ CryptoManager.hexEncode d1 := by
      intro x
      simp [String.append_assoc]
    rw [e, e]
    exact h
  have h2 := strCancelLeft h1
  exact strCancelRight h2

/-- Two ideal signatures under one key agree only on equal messages. -/
theorem sig_encoding_inj_data {s d1 d2 : String}
    (h : ("SIG|" ++ CryptoManager.privTag ++ s ++ "|" ++ CryptoManager.hexEncode d1 : String) =
      "SIG|" ++ CryptoManager.privTag ++ s ++ "|" ++ CryptoManager.hexEncode d2) : d1 = d2 := by
  apply hexEncode_inj
  have e : ∀ x : String, ("SIG|" ++ CryptoManager.privTag ++ s ++ "|" : String) ++ x =
      "SIG|" ++ CryptoManager.privTag ++ s ++ "|" ++ x := by
    intro x
    simp [String.append_assoc]
  rw [← e, ← e] at h
  exact strCancelLeft h

/-! ### Serialization round-trip -/

theorem skipSp_cons_of_ne {c : Char} (h : (c == ' ') = false) (r : List Char) :
    skipSp (c :: r) = c :: r := by
  simp [skipSp, List.dropWhile, h]

theorem skipSp_space (r : List Char) : skipSp (' ' :: r) = skipSp r := by
  simp [skipSp, List.dropWhile]

theorem plain_ne_quote {c : Char} (h : PlainChar c = true) : (c != '"') = true := by
  simp only [PlainChar, Bool.and_eq_true] at h
  exact h.1.1

theorem takeWhile_plain_append {l : List Char} (hp : ∀ c ∈ l, PlainChar c = true)
    (rest : List Char) :
    (l ++ '"' :: rest).takeWhile (fun c => c != '"') = l := by
  induction l with
  | nil => simp [List.takeWhile]
  | cons c l2 ih =>
    have hc := plain_ne_quote (hp c (List.mem_cons_self c l2))
    have ih2 := ih (fun d hd => hp d (List.mem_cons_of_mem c hd))
    simp [List.takeWhile_cons, hc, ih2]

theorem dropWhile_plain_append {l : List Char} (hp : ∀ c ∈ l, PlainChar c = true)
    (rest : List Char) :
    (l ++ '"' :: rest).dropWhile (fun c => c != '"') = '"' :: rest := by
  induction l with
  | nil => simp [List.dropWhile]
  | cons c l2 ih =>
    have hc := plain_ne_quote (hp c (List.mem_cons_self c l2))
    simp only [List.cons_append, List.dropWhile_cons, hc]
    exact ih (fun d hd => hp d (List.mem_cons_of_mem c hd))

theorem mkStr_data (s : String) : (⟨s.data⟩ : String) = s := by cases s; rfl

theorem plainStr_mem {s : String} (hp : plainStr s = true) : ∀ c ∈ s.data, PlainChar c = true := by
  simpa [plainStr, List.all_eq_true] using hp

theorem parseStringLit_rt {s : String} (hp : plainStr s = true) (rest : List Char) :
    parseStringLit (s.data ++ '"' :: rest) = some (s, rest) := by
  unfold parseStringLit
  rw [dropWhile_plain_append (plainStr_mem hp), takeWhile_plain_append (plainStr_mem hp)]
  simp [mkStr_data]

theorem parseVal_jstr {s : String} (hp : plainStr s = true) (rest : List Char) :
    parseVal ('"' :: (s.data ++ '"' :: rest)) = some (.jstr s, rest) := by
  simp [parseVal, parseStringLit_rt hp]

theorem parseEntries_space (f : Nat) (x : List Char) :
    parseEntries f (' ' :: x) = parseEntries f x := by
  cases f with
  | zero => rfl
  | succ f2 => simp only [parseEntries, skipSp_space]

theorem parseEntries_rt :
    ∀ (o : List (String × JVal)) (fuel : Nat) (rest : List Char), o ≠ [] →
      o.length ≤ fuel → PlainEntries o →
      parseEntries fuel (dumpEntriesChars o ++ '}' :: rest) = some (o, rest) := by
  intro o
  induction o with
  | nil => intro fuel rest hne; exact absurd rfl hne
  | cons kv o2 ih =>
    intro fuel rest _ hlen hplain
    obtain ⟨k, v⟩ := kv
    obtain ⟨hk, s, hv, hs⟩ := hplain (k, v) (List.mem_cons_self _ _)
    subst hv
    cases fuel with
    | zero => simp at hlen
    | succ f =>
      cases o2 with
      | nil =>
        have hshape :
            dumpEntriesChars [(k, JVal.jstr s)] ++ '}' :: rest =
              '"' :: (k.data ++ '"' :: ':' :: ' ' ::
                '"' :: (s.data ++ '"' :: '}' :: rest)) := by
          simp [dumpEntriesChars, dumpStrChars, dumpValChars, List.append_assoc]
        rw [hshape]
        simp only [parseEntries]
        rw [skipSp_cons_of_ne (by decide)]
        simp only
        rw [parseStringLit_rt hk]
        simp only
        rw [skipSp_cons_of_ne (by decide)]
        simp only [skipSp_space]
        rw [skipSp_cons_of_ne (by decide)]
        rw [parseVal_jstr hs]
        simp only
        rw [skipSp_cons_of_ne (by decide)]
        rfl
      | cons kv2 o3 =>
        have hshape :
            dumpEntriesChars ((k, JVal.jstr s) :: kv2 :: o3) ++ '}' :: rest =
              '"' :: (k.data ++ '"' :: ':' :: ' ' ::
                '"' :: (s.data ++ '"' :: ',' :: ' ' ::
                  (dumpEntriesChars (kv2 :: o3) ++ '}' :: rest))) := by
          simp [dumpEntriesChars, dumpStrChars, dumpValChars, List.append_assoc]
        rw [hshape]
        simp only [parseEntries]
        rw [skipSp_cons_of_ne (by decide)]
        simp only
        rw [parseStringLit_rt hk]
        simp only
        rw [skipSp_cons_of_ne (by decide)]
        simp only [skipSp_space]
        rw [skipSp_cons_of_ne (by decide)]
        rw [parseVal_jstr hs]
        simp only
        rw [skipSp_cons_of_ne (by decide)]
        simp only
        rw [parseEntries_space]
        rw [ih f rest (by simp) (by simpa using hlen)
          (fun e he => hplain e (List.mem_cons_of_mem _ he))]
        rfl

theorem dumpEntriesChars_cons_head (kv : String × JVal) (o : List (String × JVal)) :
    ∃ tl, dumpEntriesChars (kv :: o) = '"' :: tl := by
  obtain ⟨k, v⟩ := kv
  cases o with
  | nil =>
    exact ⟨k.data ++ '"' :: ':' :: ' ' :: dumpValChars v,
      by simp [dumpEntriesChars, dumpStrChars]⟩
  | cons kv2 o3 =>
    exact ⟨k.data ++ '"' :: ':' :: ' ' :: (dumpValChars v ++ ',' :: ' ' ::
      dumpEntriesChars (kv2 :: o3)), by simp [dumpEntriesChars, dumpStrChars]⟩

theorem length_dumpEntriesChars (o : List (String × JVal)) :
    o.length ≤ (dumpEntriesChars o).length := by
  induction o with
  | nil => simp [dumpEntriesChars]
  | cons kv o2 ih =>
    obtain ⟨k, v⟩ := kv
    cases o2 with
    | nil => simp [dumpEntriesChars, dumpStrChars]
    | cons kv2 o3 =>
      simp only [dumpEntriesChars, List.length_cons, List.length_append, dumpStrChars] at *
      omega

/-- The parser inverts canonical serialization on plain string-valued
objects. -/
theorem jsonParse_dumpObj {o : List (String × JVal)} (hp : PlainEntries o) :
    jsonParse (dumpObj o) = some o := by
  have h0 : jsonParse (dumpObj o) =
      jsonParseChars ('{' :: (dumpEntriesChars o ++ ['}'])) := rfl
  rw [h0]
  cases o with
  | nil => rfl
  | cons kv o2 =>
    obtain ⟨tl, htl⟩ := dumpEntriesChars_cons_head kv o2
    have hne : dumpEntriesChars (kv :: o2) ++ ['}'] =
        '"' :: (tl ++ ['}']) := by rw [htl]; rfl
    rw [hne]
    have hred : ∀ tl2 : List Char,
        jsonParseChars ('{' :: '"' :: tl2) =
          match parseEntries (('"' :: tl2).length + 1) ('"' :: tl2) with
          | some (p, rest) => if (skipSp rest).isEmpty then some p else none
          | none => none := fun _ => rfl
    rw [hred]
    have hback : ('"' : Char) :: (tl ++ ['}']) = dumpEntriesChars (kv :: o2) ++ '}' :: [] := by
      rw [htl]; rfl
    rw [hback]
    rw [parseEntries_rt (kv :: o2) _ [] (by simp)
      (by
        have h1 := length_dumpEntriesChars (kv :: o2)
        have h2 : (dumpEntriesChars (kv :: o2) ++ '}' :: []).length =
            (dumpEntriesChars (kv :: o2)).length + 1 := by simp
        omega) hp]
    rfl

/-! ### Association-list and canonical-order lemmas -/

theorem lookup_orderedInsert_ne {x : String × JVal} {l : List (String × JVal)} {k : String}
    (h : x.1 ≠ k) :
    List.lookup k (List.orderedInsert keyLe x l) = List.lookup k l := by
  have hbeq : (k == x.1) = false := by simpa using (Ne.symm h)
  induction l with
  | nil => simp [List.orderedInsert, List.lookup, hbeq]
  | cons y l2 ih =>
    simp only [List.orderedInsert]
    split_ifs with hle
    · simp [List.lookup, hbeq]
    · simp only [List.lookup]
      cases hy : k == y.1 with
      | true => rfl
      | false => exact ih

theorem lookup_orderedInsert_self {l : List (String × JVal)} {k : String} {v : JVal}
    (h : ∀ kv ∈ l, kv.1 ≠ k) :
    List.lookup k (List.orderedInsert keyLe (k, v) l) = some v := by
  induction l with
  | nil => simp [List.orderedInsert, List.lookup]
  | cons y l2 ih =>
    simp only [List.orderedInsert]
    split_ifs with hle
    · simp [List.lookup]
    · have hy : (k == y.1) = false := by
        simpa using Ne.symm (h y (List.mem_cons_self y l2))
      simp only [List.lookup, hy]
      exact ih (fun kv hkv => h kv (List.mem_cons_of_mem y hkv))

theorem lookup_insertionSort {l : List (String × JVal)} (k : String)
    (h : (l.map Prod.fst).Nodup) :
    List.lookup k (List.insertionSort keyLe l) = List.lookup k l := by
  induction l with
  | nil => rfl
  | cons x l2 ih =>
    rw [List.map_cons] at h
    have hnodup := List.nodup_cons.mp h
    simp only [List.insertionSort]
    by_cases hx : x.1 = k
    · have hxeta : x = (k, x.2) := by
        obtain ⟨a, b⟩ := x
        simp only at hx
        rw [hx]
      rw [hxeta]
      rw [lookup_orderedInsert_self (by
        intro kv hkv
        have hkv2 : kv ∈ l2 := by
          have := (List.mem_insertionSort keyLe (l := l2)).mp hkv
          exact this
        intro heq
        apply hnodup.1
        have : kv.1 ∈ l2.map Prod.fst := List.mem_map_of_mem Prod.fst hkv2
        rw [heq] at this
        rw [← hx] at this
        exact this)]
      simp [List.lookup]
    · rw [lookup_orderedInsert_ne hx]
      have hbeq : (k == x.1) = false := by simpa using Ne.symm hx
      rw [ih hnodup.2]
      simp [List.lookup, hbeq]

theorem lookup_append_left_none {l1 l2 : List (String × JVal)} {k : String}
    (h : ∀ e ∈ l1, e.1 ≠ k) :
    List.lookup k (l1 ++ l2) = List.lookup k l2 := by
  induction l1 with
  | nil => rfl
  | cons x t ih =>
    have hbeq : (k == x.1) = false := by
      simpa using Ne.symm (h x (List.mem_cons_self x t))
    simp only [List.cons_append, List.lookup, hbeq]
    exact ih (fun e he => h e (List.mem_cons_of_mem x he))

theorem lookup_of_mem_nodup {l : List (String × JVal)} {kv : String × JVal}
    (hm : kv ∈ l) (h : (l.map Prod.fst).Nodup) :
    List.lookup kv.1 l = some kv.2 := by
  induction l with
  | nil => cases hm
  | cons x t ih =>
    rw [List.map_cons] at h
    have hnodup := List.nodup_cons.mp h
    rcases List.mem_cons.mp hm with he | ht
    · subst he
      simp [List.lookup]
    · have hbeq : (kv.1 == x.1) = false := by
        have hmem : kv.1 ∈ t.map Prod.fst := List.mem_map_of_mem Prod.fst ht
        simp only [beq_eq_false_iff_ne, ne_eq]
        intro heq
        exact hnodup.1 (heq ▸ hmem)
      simp only [List.lookup, hbeq]
      exact ih ht hnodup.2

theorem filter_orderedInsert_false {p : String × JVal → Bool} {x : String × JVal}
    {l : List (String × JVal)} (hx : p x = false) :
    List.filter p (List.orderedInsert keyLe x l) = List.filter p l := by
  rw [List.orderedInsert_eq_take_drop]
  rw [List.filter_append]
  simp only [List.filter_cons, hx, Bool.false_eq_true, if_false]
  rw [← List.filter_append, List.takeWhile_append_dropWhile]

theorem mergeAdd_disjoint {base add : List (String × JVal)}
    (h : ∀ kv ∈ base, (add.any (fun a => a.1 == kv.1)) = false) :
    mergeAdd base add = base ++ add := by
  unfold mergeAdd
  congr 1
  rw [List.filter_eq_self]
  intro kv hkv
  simp [h kv hkv]

/-- Keys of the canonically sorted object are a permutation of the
original keys. -/
theorem keys_insertionSort_perm (l : List (String × JVal)) :
    List.Perm ((List.insertionSort keyLe l).map Prod.fst) (l.map Prod.fst) :=
  (List.perm_insertionSort keyLe l).map Prod.fst

theorem nodup_keys_insertionSort {l : List (String × JVal)}
    (h : (l.map Prod.fst).Nodup) :
    ((List.insertionSort keyLe l).map Prod.fst).Nodup :=
  (keys_insertionSort_perm l).nodup_iff.mpr h

theorem plainStr_mkSig {seed : String} (h : plainStr seed = true) (payload : String) :
    plainStr (mkSig seed payload) = true := by
  unfold mkSig
  refine plainStr_append (plainStr_append (plainStr_append ?_ h) ?_) ?_
  · decide
  · decide
  · exact plainStr_hexEncode payload

theorem get_fingerprint_raw_of_mem {m : Machine} {t : String}
    (h : t ∈ HardwareFingerprint.available_types) :
    ∃ hw, HardwareFingerprint.get_fingerprint_raw m t = some hw ∧
      plainStr hw = true ∧ hw.length = 64 ∧ isLowerHex hw = true := by
  fin_cases h <;>
    exact ⟨_, rfl, plainStr_hash_data _, length_hash_data _, isLowerHex_hash_data _⟩

theorem plain_of_mem_types {t : String} (h : t ∈ HardwareFingerprint.available_types) :
    plainStr t = true := by
  fin_cases h <;> decide

theorem plainChar_digitChar (n : Nat) : PlainChar (digitChar n) = true := by
  have h10 : n % 10 < 10 := Nat.mod_lt _ (by omega)
  have key : ∀ k, k < 10 → PlainChar (digitChars.getD k '0') = true := by decide
  simpa [digitChar] using key (n % 10) h10

theorem plainStr_formatDate (d : Date) : plainStr (formatDate d) = true := by
  simp [formatDate, plainStr, plainChar_digitChar]
  decide

/-- Membership in the unsigned record comes from the seven base fields
or from the caller's additional data. -/
theorem record_mem_cases {gen : LicenseGenerator} {today : Date}
    {expiry ftype hw comp : String} {add : List (String × JVal)} {kv : String × JVal}
    (h : kv ∈ LicenseGenerator.licenseRecord gen today expiry ftype hw comp add) :
    kv ∈ baseFields gen.preseed today expiry ftype hw comp ∨ kv ∈ add := by
  unfold LicenseGenerator.licenseRecord at h
  rw [List.mem_insertionSort] at h
  unfold mergeAdd at h
  rcases List.mem_append.mp h with hb | ha
  · exact Or.inl (List.mem_filter.mp hb).1
  · exact Or.inr ha

theorem record_plainEntries {gen : LicenseGenerator} {today : Date}
    {expiry ftype hw comp : String} {add : List (String × JVal)}
    (hexpP : plainStr expiry = true) (hft : plainStr ftype = true)
    (hhw : plainStr hw = true) (hcomp : plainStr comp = true) (hadd : PlainEntries add) :
    PlainEntries (LicenseGenerator.licenseRecord gen today expiry ftype hw comp add) := by
  intro kv hkv
  rcases record_mem_cases hkv with hb | ha
  · simp only [baseFields, List.mem_cons, List.not_mem_nil, or_false] at hb
    rcases hb with h | h | h | h | h | h | h <;> subst h
    · exact ⟨(by decide : plainStr "version" = true), "1.0", rfl, by decide⟩
    · exact ⟨(by decide : plainStr "hw_type" = true), ftype, rfl, hft⟩
    · exact ⟨(by decide : plainStr "hw_info" = true), hw, rfl, hhw⟩
    · exact ⟨(by decide : plainStr "expiry" = true), expiry, rfl, hexpP⟩
    · exact ⟨(by decide : plainStr "issued" = true), formatDate today, rfl,
        plainStr_formatDate today⟩
    · exact ⟨(by decide : plainStr "preseed_hash" = true), _, rfl, plainStr_hash_data _⟩
    · exact ⟨(by decide : plainStr "component_name" = true), comp, rfl, hcomp⟩
  · exact hadd kv ha

theorem base_disjoint_add {preseed : String} {today : Date}
    {expiry ftype hw comp : String} {add : List (String × JVal)}
    (haddR : ∀ kv ∈ add, kv.1 ∉ requiredFields) :
    ∀ kv ∈ baseFields preseed today expiry ftype hw comp,
      (add.any (fun a => a.1 == kv.1)) = false := by
  intro kv hkv
  rw [List.any_eq_false]
  intro a ha
  have hnr := haddR a ha
  simp only [baseFields, List.mem_cons, List.not_mem_nil, or_false] at hkv
  rcases hkv with h | h | h | h | h | h | h <;> subst h <;>
    (intro heq; exact hnr (by rw [eq_of_beq heq]; simp [requiredFields]))

theorem record_keys_nodup (gen : LicenseGenerator) (today : Date)
    (expiry ftype hw comp : String) {add : List (String × JVal)}
    (haddN : (add.map Prod.fst).Nodup)
    (haddR : ∀ kv ∈ add, kv.1 ∉ requiredFields) :
    ((LicenseGenerator.licenseRecord gen today expiry ftype hw comp add).map
      Prod.fst).Nodup := by
  unfold LicenseGenerator.licenseRecord
  apply nodup_keys_insertionSort
  rw [mergeAdd_disjoint (base_disjoint_add haddR)]
  rw [List.map_append, List.nodup_append]
  refine ⟨by simp only [baseFields, List.map_cons, List.map_nil]; decide, haddN, ?_⟩
  intro a hab haa
  simp only [baseFields, List.map_cons, List.map_nil, List.mem_cons,
    List.not_mem_nil, or_false] at hab
  obtain ⟨kv, hkv, hkva⟩ := List.mem_map.mp haa
  have := haddR kv hkv
  rcases hab with h | h | h | h | h | h | h <;> subst h <;>
    exact this (by rw [hkva]; decide)

theorem record_no_sig {gen : LicenseGenerator} {today : Date}
    {expiry ftype hw comp : String} {add : List (String × JVal)}
    (haddR : ∀ kv ∈ add, kv.1 ∉ requiredFields) :
    ∀ kv ∈ LicenseGenerator.licenseRecord gen today expiry ftype hw comp add,
      kv.1 ≠ "signature" := by
  intro kv hkv
  rcases record_mem_cases hkv with hb | ha
  · simp only [baseFields, List.mem_cons, List.not_mem_nil, or_false] at hb
    rcases hb with h | h | h | h | h | h | h <;> subst h <;> simp
  · intro heq
    exact haddR kv ha (by rw [heq]; decide)

theorem record_sorted (gen : LicenseGenerator) (today : Date)
    (expiry ftype hw comp : String) (add : List (String × JVal)) :
    List.Sorted keyLe (LicenseGenerator.licenseRecord gen today expiry ftype hw comp add) :=
  List.sorted_insertionSort keyLe _

/-- The seven base lookups of the unsigned record. -/
theorem record_lookups (gen : LicenseGenerator) (today : Date)
    (expiry ftype hw comp : String) {add : List (String × JVal)}
    (haddN : (add.map Prod.fst).Nodup)
    (haddR : ∀ kv ∈ add, kv.1 ∉ requiredFields) :
    let rec0 := LicenseGenerator.licenseRecord gen today expiry ftype hw comp add
    List.lookup "version" rec0 = some (.jstr "1.0") ∧
    List.lookup "hw_type" rec0 = some (.jstr ftype) ∧
    List.lookup "hw_info" rec0 = some (.jstr hw) ∧
    List.lookup "expiry" rec0 = some (.jstr expiry) ∧
    List.lookup "issued" rec0 = some (.jstr (formatDate today)) ∧
    List.lookup "preseed_hash" rec0 = some (.jstr (CryptoManager.create_preseed_hash
      gen.preseed hw ftype expiry comp)) ∧
    List.lookup "component_name" rec0 = some (.jstr comp) := by
  intro rec0
  have hkeys := record_keys_nodup gen today expiry ftype hw comp haddN haddR
  have hun : rec0 = List.insertionSort keyLe
      (baseFields gen.preseed today expiry ftype hw comp ++ add) := by
    unfold_let rec0
    unfold LicenseGenerator.licenseRecord
    rw [mergeAdd_disjoint (base_disjoint_add haddR)]
  have hnodup : ((baseFields gen.preseed today expiry ftype hw comp ++ add).map
      Prod.fst).Nodup := by
    have h2 := hkeys
    unfold LicenseGenerator.licenseRecord at h2
    rw [mergeAdd_disjoint (base_disjoint_add haddR)] at h2
    exact (keys_insertionSort_perm _).nodup_iff.mp h2
  refine ⟨?_, ?_, ?_, ?_, ?_, ?_, ?_⟩ <;>
    (rw [hun, lookup_insertionSort _ hnodup]; simp [baseFields, List.lookup])

/-- A caller-supplied field survives into the unsigned record. -/
theorem record_lookup_add {gen : LicenseGenerator} {today : Date}
    {expiry ftype hw comp : String} {add : List (String × JVal)}
    (haddN : (add.map Prod.fst).Nodup)
    (haddR : ∀ kv ∈ add, kv.1 ∉ requiredFields)
    {kv : String × JVal} (hkv : kv ∈ add) :
    List.lookup kv.1 (LicenseGenerator.licenseRecord gen today expiry ftype hw comp add) =
      some kv.2 := by
  have hkeys := record_keys_nodup gen today expiry ftype hw comp haddN haddR
  unfold LicenseGenerator.licenseRecord at *
  rw [mergeAdd_disjoint (base_disjoint_add haddR)] at *
  have hnodup : ((baseFields gen.preseed today expiry ftype hw comp ++ add).map
      Prod.fst).Nodup := (keys_insertionSort_perm _).nodup_iff.mp hkeys
  rw [lookup_insertionSort _ hnodup]
  rw [lookup_append_left_none (by
    intro e he
    have hnr := haddR kv hkv
    simp only [baseFields, List.mem_cons, List.not_mem_nil, or_false] at he
    rcases he with h | h | h | h | h | h | h <;> subst h <;>
      (intro heq; exact hnr (by rw [← heq]; simp [requiredFields])))]
  exact lookup_of_mem_nodup hkv haddN

theorem generate_license_ok {seed preseed expiry ftype comp : String}
    {add : List (String × JVal)} {m : Machine} {today : Date} {hw : String} {de : Date}
    (hexp : parseDate expiry = some de)
    (hhw : HardwareFingerprint.get_fingerprint_raw m ftype = some hw) :
    LicenseGenerator.generate_license (genOf seed preseed) m today expiry ftype add comp
        none =
      .ok (dumpObj (signedRecord seed preseed today expiry ftype hw comp add)) := by
  unfold LicenseGenerator.generate_license
  rw [hexp]
  simp only
  rw [hhw]
  simp only
  have hsign : CryptoManager.sign_data
      (dumpObj (LicenseGenerator.licenseRecord (genOf seed preseed) today expiry ftype hw
        comp add)) (genOf seed preseed).private_key_b64 =
      .ok (mkSig seed (dumpObj (LicenseGenerator.licenseRecord (genOf seed preseed) today
        expiry ftype hw comp add))) := by
    have h2 : (genOf seed preseed).private_key_b64 = CryptoManager.privTag ++ seed := rfl
    rw [h2, sign_data_tagged]
    rfl
  rw [hsign]
  rfl

theorem signedRecord_plain {seed preseed expiry ftype comp hw : String}
    {add : List (String × JVal)} {today : Date}
    (hseed : plainStr seed = true) (hexpP : plainStr expiry = true)
    (hftP : plainStr ftype = true) (hhwP : plainStr hw = true)
    (hcomp : plainStr comp = true) (hadd : PlainEntries add) :
    PlainEntries (signedRecord seed preseed today expiry ftype hw comp add) := by
  intro kv hkv
  unfold signedRecord at hkv
  rw [List.mem_orderedInsert] at hkv
  rcases hkv with he | hm
  · subst he
    exact ⟨(by decide : plainStr "signature" = true), _, rfl, plainStr_mkSig hseed _⟩
  · exact record_plainEntries hexpP hftP hhwP hcomp hadd kv hm

theorem signedRecord_lookup_sig (seed preseed expiry ftype comp hw : String)
    {add : List (String × JVal)} (today : Date)
    (haddR : ∀ kv ∈ add, kv.1 ∉ requiredFields) :
    List.lookup "signature" (signedRecord seed preseed today expiry ftype hw comp add) =
      some (.jstr (mkSig seed (dumpObj (LicenseGenerator.licenseRecord
        (genOf seed preseed) today expiry ftype hw comp add)))) := by
  unfold signedRecord
  exact lookup_orderedInsert_self (fun kv hkv => record_no_sig haddR kv hkv)

theorem signedRecord_lookup_ne {seed preseed expiry ftype comp hw : String}
    {add : List (String × JVal)} {today : Date} {k : String} (hk : k ≠ "signature") :
    List.lookup k (signedRecord seed preseed today expiry ftype hw comp add) =
      List.lookup k (LicenseGenerator.licenseRecord (genOf seed preseed) today expiry
        ftype hw comp add) := by
  unfold signedRecord
  exact lookup_orderedInsert_ne (fun he => hk (he ▸ rfl))

theorem signedRecord_filter {seed preseed expiry ftype comp hw : String}
    {add : List (String × JVal)} {today : Date}
    (haddR : ∀ kv ∈ add, kv.1 ∉ requiredFields) :
    (signedRecord seed preseed today expiry ftype hw comp add).filter
        (fun kv => kv.1 != "signature") =
      LicenseGenerator.licenseRecord (genOf seed preseed) today expiry ftype hw comp add := by
  unfold signedRecord
  rw [filter_orderedInsert_false (by simp)]
  rw [List.filter_eq_self]
  intro kv hkv
  simpa using record_no_sig haddR kv hkv

theorem insertionSort_record {gen : LicenseGenerator} {today : Date}
    {expiry ftype hw comp : String} {add : List (String × JVal)} :
    List.insertionSort keyLe
        (LicenseGenerator.licenseRecord gen today expiry ftype hw comp add) =
      LicenseGenerator.licenseRecord gen today expiry ftype hw comp add :=
  (record_sorted gen today expiry ftype hw comp add).insertionSort_eq

/-- The eight verifier lookups of the signed record. -/
theorem signedRecord_lookups (seed preseed expiry ftype comp hw : String)
    {add : List (String × JVal)} (today : Date)
    (haddN : (add.map Prod.fst).Nodup)
    (haddR : ∀ kv ∈ add, kv.1 ∉ requiredFields) :
    let sr := signedRecord seed preseed today expiry ftype hw comp add
    List.lookup "version" sr = some (.jstr "1.0") ∧
    List.lookup "hw_type" sr = some (.jstr ftype) ∧
    List.lookup "hw_info" sr = some (.jstr hw) ∧
    List.lookup "expiry" sr = some (.jstr expiry) ∧
    List.lookup "issued" sr = some (.jstr (formatDate today)) ∧
    List.lookup "preseed_hash" sr = some (.jstr (CryptoManager.create_preseed_hash
      preseed hw ftype expiry comp)) ∧
    List.lookup "component_name" sr = some (.jstr comp) := by
  intro sr
  obtain ⟨h1, h2, h3, h4, h5, h6, h7⟩ :=
    record_lookups (genOf seed preseed) today expiry ftype hw comp haddN haddR
  have hp : (genOf seed preseed).preseed = preseed := rfl
  rw [hp] at h6
  exact ⟨by rw [signedRecord_lookup_ne (by decide)]; exact h1,
    by rw [signedRecord_lookup_ne (by decide)]; exact h2,
    by rw [signedRecord_lookup_ne (by decide)]; exact h3,
    by rw [signedRecord_lookup_ne (by decide)]; exact h4,
    by rw [signedRecord_lookup_ne (by decide)]; exact h5,
    by rw [signedRecord_lookup_ne (by decide)]; exact h6,
    by rw [signedRecord_lookup_ne (by decide)]; exact h7⟩

theorem parse_and_validate_generated (seed preseed expiry ftype comp hw : String)
    {add : List (String × JVal)} {today : Date} {de : Date}
    (hseed : plainStr seed = true) (hexpP : plainStr expiry = true)
    (hexp : parseDate expiry = some de) (htod : validDate today = true)
    (hftP : plainStr ftype = true) (hhwP : plainStr hw = true)
    (hcomp : plainStr comp = true) (hadd : PlainEntries add)
    (haddN : (add.map Prod.fst).Nodup)
    (haddR : ∀ kv ∈ add, kv.1 ∉ requiredFields) :
    LicenseManager.parse_and_validate
        (dumpObj (signedRecord seed preseed today expiry ftype hw comp add)) =
      .ok (signedRecord seed preseed today expiry ftype hw comp add, de, today) := by
  obtain ⟨h1, h2, h3, h4, h5, h6, h7⟩ :=
    signedRecord_lookups seed preseed expiry ftype comp hw today haddN haddR
  have h8 := signedRecord_lookup_sig seed preseed expiry ftype comp hw today haddR
  unfold LicenseManager.parse_and_validate
  rw [jsonParse_dumpObj (signedRecord_plain hseed hexpP hftP hhwP hcomp hadd)]
  have hfind : requiredFields.find?
      (fun f => (lookupJ f (signedRecord seed preseed today expiry ftype hw comp
        add)).isNone) = none := by
    simp only [requiredFields, List.find?, lookupJ, h1, h2, h3, h4, h5, h6, h7, h8,
      Option.isNone_some]
  have hgete : getStr "expiry" (signedRecord seed preseed today expiry ftype hw comp add) =
      some expiry := by
    unfold getStr lookupJ
    rw [h4]
  have hgeti : getStr "issued" (signedRecord seed preseed today expiry ftype hw comp add) =
      some (formatDate today) := by
    unfold getStr lookupJ
    rw [h5]
  simp only [hfind, lookupJ, h1, hgete, hgeti, hexp, parseDate_formatDate htod,
    Option.some_bind, if_pos]
  have hfind2 : List.find? (fun f =>
      (List.lookup f (signedRecord seed preseed today expiry ftype hw comp
        add)).isNone) requiredFields = none := hfind
  rw [hfind2]

theorem verify_generated_cases (seed seed2 preseed preseedB : String)
    {expiry ftype comp : String}
    {add : List (String × JVal)} {m : Machine} {today de : Date} {hw : String}
    (hseed : plainStr seed = true) (hexpP : plainStr expiry = true)
    (hexp : parseDate expiry = some de) (htod : validDate today = true)
    (hft : ftype ∈ HardwareFingerprint.available_types)
    (hhw : HardwareFingerprint.get_fingerprint_raw m ftype = some hw)
    (hcomp : plainStr comp = true) (hadd : PlainEntries add)
    (haddN : (add.map Prod.fst).Nodup)
    (haddR : ∀ kv ∈ add, kv.1 ∉ requiredFields)
    (chw cexp : Bool) :
    (seed2 ≠ seed →
      (mgrOf seed2 preseedB).verify_license m today
          (dumpObj (signedRecord seed preseed today expiry ftype hw comp add)) chw cexp =
        .error (.invalid "signature is invalid")) ∧
    (CryptoManager.create_preseed_hash preseed hw ftype expiry comp ≠
        CryptoManager.create_preseed_hash preseedB hw ftype expiry comp →
      (mgrOf seed preseedB).verify_license m today
          (dumpObj (signedRecord seed preseed today expiry ftype hw comp add)) chw cexp =
        .error (.invalid "preseed hash is invalid")) ∧
    (cexp = true → toOrdinal de < toOrdinal today →
      (mgrOf seed preseed).verify_license m today
          (dumpObj (signedRecord seed preseed today expiry ftype hw comp add)) chw cexp =
        .error (.expired "License has expired")) ∧
    ((cexp = false ∨ toOrdinal today ≤ toOrdinal de) →
      (mgrOf seed preseed).verify_license m today
          (dumpObj (signedRecord seed preseed today expiry ftype hw comp add)) chw cexp =
        .ok (signedRecord seed preseed today expiry ftype hw comp add)) := by
  have hftP := plain_of_mem_types hft
  have hhwP : plainStr hw = true := by
    obtain ⟨hw2, hh1, hh2, _, _⟩ := get_fingerprint_raw_of_mem (m := m) hft
    rw [hh1] at hhw
    injection hhw with he
    rw [← he]
    exact hh2
  have hpv := parse_and_validate_generated seed preseed expiry ftype comp hw
    hseed hexpP hexp htod hftP hhwP hcomp hadd haddN haddR
  obtain ⟨h1, h2, h3, h4, h5, h6, h7⟩ :=
    signedRecord_lookups seed preseed expiry ftype comp hw today haddN haddR
  have h8 := signedRecord_lookup_sig seed preseed expiry ftype comp hw today haddR
  have hgetsig : getStr "signature"
      (signedRecord seed preseed today expiry ftype hw comp add) =
      some (mkSig seed (dumpObj (LicenseGenerator.licenseRecord (genOf seed preseed)
        today expiry ftype hw comp add))) := by
    unfold getStr lookupJ
    rw [h8]
  have hpayload : dumpObj (List.insertionSort keyLe
      ((signedRecord seed preseed today expiry ftype hw comp add).filter
        (fun kv => kv.1 != "signature"))) =
      dumpObj (LicenseGenerator.licenseRecord (genOf seed preseed) today expiry ftype hw
        comp add) := by
    rw [signedRecord_filter haddR, insertionSort_record]
  have hget3 : getStr "hw_info" (signedRecord seed preseed today expiry ftype hw comp add) =
      some hw := by unfold getStr lookupJ; rw [h3]
  have hget2 : getStr "hw_type" (signedRecord seed preseed today expiry ftype hw comp add) =
      some ftype := by unfold getStr lookupJ; rw [h2]
  have hget4 : getStr "expiry" (signedRecord seed preseed today expiry ftype hw comp add) =
      some expiry := by unfold getStr lookupJ; rw [h4]
  have hget7 : getStr "component_name"
      (signedRecord seed preseed today expiry ftype hw comp add) = some comp := by
    unfold getStr lookupJ
    rw [h7]
  refine ⟨?_, ?_, ?_, ?_⟩
  · intro hne
    unfold LicenseManager.verify_license
    rw [hpv]
    simp only
    rw [hgetsig]
    simp only
    rw [hpayload]
    have hpub : (mgrOf seed2 preseedB).public_key_b64 = CryptoManager.pubTag ++ seed2 := rfl
    rw [hpub, verify_signature_tagged]
    have hsigne : (mkSig seed (dumpObj (LicenseGenerator.licenseRecord (genOf seed preseed)
        today expiry ftype hw comp add)) ==
        "SIG|" ++ CryptoManager.privTag ++ seed2 ++ "|" ++ CryptoManager.hexEncode
          (dumpObj (LicenseGenerator.licenseRecord (genOf seed preseed) today expiry ftype
            hw comp add))) = false := by
      rw [beq_eq_false_iff_ne]
      intro heq
      exact hne (sig_encoding_inj heq rfl).symm
    rw [hsigne]
  · intro hne
    unfold LicenseManager.verify_license
    rw [hpv]
    simp only
    rw [hgetsig]
    simp only
    rw [hpayload]
    have hpub : (mgrOf seed preseedB).public_key_b64 = CryptoManager.pubTag ++ seed := rfl
    rw [hpub, verify_signature_tagged]
    rw [show (mkSig seed (dumpObj (LicenseGenerator.licenseRecord (genOf seed preseed)
        today expiry ftype hw comp add)) ==
        "SIG|" ++ CryptoManager.privTag ++ seed ++ "|" ++ CryptoManager.hexEncode
          (dumpObj (LicenseGenerator.licenseRecord (genOf seed preseed) today expiry ftype
            hw comp add))) = true from beq_iff_eq.mpr rfl]
    simp only
    rw [hget3, hget2, hget4, hget7]
    simp only [Option.getD_some]
    have hpb : (mgrOf seed preseedB).preseed = preseedB := rfl
    rw [hpb]
    rw [if_neg (by
      simp only [lookupJ, h6, Option.some_inj]
      intro heq
      injection heq with he2
      exact hne he2)]
  · intro hce hlt
    unfold LicenseManager.verify_license
    rw [hpv]
    simp only
    rw [hgetsig]
    simp only
    rw [hpayload]
    have hpub : (mgrOf seed preseed).public_key_b64 = CryptoManager.pubTag ++ seed := rfl
    rw [hpub, verify_signature_tagged]
    rw [show (mkSig seed (dumpObj (LicenseGenerator.licenseRecord (genOf seed preseed)
        today expiry ftype hw comp add)) ==
        "SIG|" ++ CryptoManager.privTag ++ seed ++ "|" ++ CryptoManager.hexEncode
          (dumpObj (LicenseGenerator.licenseRecord (genOf seed preseed) today expiry ftype
            hw comp add))) = true from beq_iff_eq.mpr rfl]
    simp only
    rw [hget3, hget2, hget4, hget7]
    simp only [Option.getD_some]
    have hpb : (mgrOf seed preseed).preseed = preseed := rfl
    rw [hpb]
    rw [if_pos (by simp only [lookupJ, h6])]
    rw [if_pos (by rw [hce]; simpa using hlt)]
  · intro hor
    unfold LicenseManager.verify_license
    rw [hpv]
    simp only
    rw [hgetsig]
    simp only
    rw [hpayload]
    have hpub : (mgrOf seed preseed).public_key_b64 = CryptoManager.pubTag ++ seed := rfl
    rw [hpub, verify_signature_tagged]
    rw [show (mkSig seed (dumpObj (LicenseGenerator.licenseRecord (genOf seed preseed)
        today expiry ftype hw comp add)) ==
        "SIG|" ++ CryptoManager.privTag ++ seed ++ "|" ++ CryptoManager.hexEncode
          (dumpObj (LicenseGenerator.licenseRecord (genOf seed preseed) today expiry ftype
            hw comp add))) = true from beq_iff_eq.mpr rfl]
    simp only
    rw [hget3, hget2, hget4, hget7]
    simp only [Option.getD_some]
    have hpb : (mgrOf seed preseed).preseed = preseed := rfl
    rw [hpb]
    rw [if_pos (by simp only [lookupJ, h6])]
    rw [if_neg (by
      rcases hor with hc | hle
      · rw [hc]; simp
      · simp only [Bool.and_eq_true, decide_eq_true_eq, not_and]
        intro _
        omega)]
    cases chw with
    | false => rfl
    | true => simp [hhw]

theorem takeWhile_append_stop {p : Char → Bool} {l : List Char} {x : Char} (rest : List Char)
    (hp : ∀ c ∈ l, p c = true) (hx : p x = false) :
    (l ++ x :: rest).takeWhile p = l ∧ (l ++ x :: rest).dropWhile p = x :: rest := by
  induction l with
  | nil => simp [List.takeWhile, List.dropWhile, hx]
  | cons c l2 ih =>
    have hc := hp c (List.mem_cons_self c l2)
    have ih2 := ih (fun d hd => hp d (List.mem_cons_of_mem c hd))
    simp [List.takeWhile_cons, List.dropWhile_cons, hc, ih2.1, ih2.2]

theorem hexEncode_no_bar (d : String) : ∀ c ∈ (CryptoManager.hexEncode d).data, (c != '|') = true := by
  intro c hc
  have hmem : c ∈ hexChars := by
    simp only [CryptoManager.hexEncode, List.mem_flatMap] at hc
    obtain ⟨b, _, hcm⟩ := hc
    simp only [CryptoManager.hexEncChar, List.mem_cons, List.not_mem_nil, or_false] at hcm
    rcases hcm with h | h | h | h | h | h <;> exact h ▸ hexDigit_mem_hexChars _
  have : ∀ c ∈ hexChars, (c != '|') = true := by decide
  exact this c hmem

/-- An ideal signature determines both the signing seed and message. -/
theorem sig_encoding_inj_full {s1 s2 d1 d2 : String}
    (h : ("SIG|" ++ CryptoManager.privTag ++ s1 ++ "|" ++ CryptoManager.hexEncode d1 : String) =
      "SIG|" ++ CryptoManager.privTag ++ s2 ++ "|" ++ CryptoManager.hexEncode d2) :
    s1 = s2 ∧ d1 = d2 := by
  have hd := congrArg String.data h
  simp only [String.data_append] at hd
  have hrev := congrArg List.reverse hd
  simp only [List.reverse_append, List.reverse_cons, List.reverse_nil, List.nil_append,
    List.singleton_append, List.append_assoc, List.cons_append] at hrev
  have hb : (('|' : Char) != '|') = false := by decide
  have hrevhex : ∀ d : String, ∀ c ∈ (CryptoManager.hexEncode d).data.reverse,
      (c != '|') = true := by
    intro d c hc
    exact hexEncode_no_bar d c (List.mem_reverse.mp hc)
  have h1 := takeWhile_append_stop
    (s1.data.reverse ++ (CryptoManager.privTag.data.reverse ++ ['|', 'G', 'I', 'S']))
    (hrevhex d1) hb
  have h2 := takeWhile_append_stop
    (s2.data.reverse ++ (CryptoManager.privTag.data.reverse ++ ['|', 'G', 'I', 'S']))
    (hrevhex d2) hb
  have htw : (CryptoManager.hexEncode d1).data.reverse =
      (CryptoManager.hexEncode d2).data.reverse := by
    rw [← h1.1, ← h2.1, hrev]
  have hdw := h1.2.symm.trans ((congrArg (List.dropWhile (fun c => c != '|')) hrev).trans h2.2)
  have hdata : d1 = d2 := by
    apply hexEncode_inj
    apply strExt
    have := congrArg List.reverse htw
    simpa using this
  refine ⟨?_, hdata⟩
  have hs : s1.data.reverse = s2.data.reverse := by
    have hc := hdw
    injection hc with _ hc2
    exact List.append_cancel_right hc2
  apply strExt
  have := congrArg List.reverse hs
  simpa using this

theorem mem_of_lookup {c : List (String × String)} {t v : String}
    (h : List.lookup t c = some v) : (t, v) ∈ c := by
  induction c with
  | nil => simp [List.lookup] at h
  | cons kv rest ih =>
    obtain ⟨k, w⟩ := kv
    simp only [List.lookup] at h
    cases hk : t == k with
    | true =>
      rw [hk] at h
      injection h with hv
      rw [eq_of_beq hk, hv]
      exact List.mem_cons_self _ _
    | false =>
      rw [hk] at h
      exact List.mem_cons_of_mem _ (ih h)

/-! ### Claims -/

/-- C5: `create_preseed_hash` equals the SHA-256 lowercase-hex digest of
the five inputs joined by `"|"`; it is deterministic with 64-character
lowercase-hex output; changing any single one of the five inputs changes
the committed message (and, concretely, the component-name variation of
the test suite produces different digests). -/
theorem c5_create_preseed_hash_spec :
    (∀ p hw t e c, CryptoManager.create_preseed_hash p hw t e c =
      CryptoManager.hash_data (p ++ "|" ++ hw ++ "|" ++ t ++ "|" ++ e ++ "|" ++ c)) ∧
    (∀ p hw t e c, (CryptoManager.create_preseed_hash p hw t e c).length = 64 ∧
      isLowerHex (CryptoManager.create_preseed_hash p hw t e c) = true) ∧
    (∀ p p2 hw t e c, p ≠ p2 →
      CryptoManager.preseedMsg p hw t e c ≠ CryptoManager.preseedMsg p2 hw t e c) ∧
    (∀ p hw hw2 t e c, hw ≠ hw2 →
      CryptoManager.preseedMsg p hw t e c ≠ CryptoManager.preseedMsg p hw2 t e c) ∧
    (∀ p hw t t2 e c, t ≠ t2 →
      CryptoManager.preseedMsg p hw t e c ≠ CryptoManager.preseedMsg p hw t2 e c) ∧
    (∀ p hw t e e2 c, e ≠ e2 →
      CryptoManager.preseedMsg p hw t e c ≠ CryptoManager.preseedMsg p hw t e2 c) ∧
    (∀ p hw t e c c2, c ≠ c2 →
      CryptoManager.preseedMsg p hw t e c ≠ CryptoManager.preseedMsg p hw t e c2) ∧
    CryptoManager.create_preseed_hash "test-preseed" "test-hardware-fingerprint" "mac"
        "2025-12-31" "TestComponent" ≠
      CryptoManager.create_preseed_hash "test-preseed" "test-hardware-fingerprint" "mac"
        "2025-12-31" "DifferentComponent" := by
  refine ⟨fun _ _ _ _ _ => rfl,
    fun p hw t e c => ⟨length_hash_data _, isLowerHex_hash_data _⟩, ?_, ?_, ?_, ?_, ?_, ?_⟩
  · intro p p2 hw t e c hne heq
    unfold CryptoManager.preseedMsg at heq
    exact hne (strCancelRight (strCancelRight (strCancelRight (strCancelRight
      (strCancelRight (strCancelRight (strCancelRight (strCancelRight heq))))))))
  · intro p hw hw2 t e c hne heq
    unfold CryptoManager.preseedMsg at heq
    have h2 := strCancelRight (strCancelRight (strCancelRight (strCancelRight
      (strCancelRight (strCancelRight heq)))))
    exact hne (strCancelLeft h2)
  · intro p hw t t2 e c hne heq
    unfold CryptoManager.preseedMsg at heq
    have h2 := strCancelRight (strCancelRight (strCancelRight (strCancelRight heq)))
    exact hne (strCancelLeft h2)
  · intro p hw t e e2 c hne heq
    unfold CryptoManager.preseedMsg at heq
    have h2 := strCancelRight (strCancelRight heq)
    exact hne (strCancelLeft h2)
  · intro p hw t e c c2 hne heq
    unfold CryptoManager.preseedMsg at heq
    exact hne (strCancelLeft heq)
  · decide

/-- C5 witness: the per-position sensitivity instantiated at concrete
inputs. -/
theorem c5_create_preseed_hash_spec_witness :
    CryptoManager.preseedMsg "a" "h" "mac" "2025-01-01" "c" ≠
      CryptoManager.preseedMsg "b" "h" "mac" "2025-01-01" "c" :=
  c5_create_preseed_hash_spec.2.2.1 "a" "b" "h" "mac" "2025-01-01" "c" (by decide)

/-- C7: every fingerprint class yields a 64-character lowercase-hex
digest; repeated calls and cache clearing never change the digest: under
any consistent cache state the cached reader returns exactly the pure
per-class digest, preserves cache consistency, and the empty (cleared)
cache is consistent, so the result is independent of call order and
caching state. -/
theorem c7_get_fingerprint_spec :
    (∀ (m : Machine) (t : String), t ∈ HardwareFingerprint.available_types →
      ∃ v, HardwareFingerprint.get_fingerprint_raw m t = some v ∧
        v.length = 64 ∧ isLowerHex v = true) ∧
    (∀ (m : Machine) (c : HardwareFingerprint.Cache) (t : String),
      HardwareFingerprint.CacheOK m c →
      (HardwareFingerprint.get_fingerprint m c t).map Prod.fst =
        HardwareFingerprint.get_fingerprint_raw m t ∧
      ∀ p, HardwareFingerprint.get_fingerprint m c t = some p →
        HardwareFingerprint.CacheOK m p.2) ∧
    (∀ m : Machine, HardwareFingerprint.CacheOK m HardwareFingerprint.clear_cache) ∧
    (∀ (m : Machine) (c1 c2 : HardwareFingerprint.Cache) (t : String),
      HardwareFingerprint.CacheOK m c1 → HardwareFingerprint.CacheOK m c2 →
      (HardwareFingerprint.get_fingerprint m c1 t).map Prod.fst =
        (HardwareFingerprint.get_fingerprint m c2 t).map Prod.fst) := by
  have hcore : ∀ (m : Machine) (c : HardwareFingerprint.Cache) (t : String),
      HardwareFingerprint.CacheOK m c →
      (HardwareFingerprint.get_fingerprint m c t).map Prod.fst =
        HardwareFingerprint.get_fingerprint_raw m t ∧
      ∀ p, HardwareFingerprint.get_fingerprint m c t = some p →
        HardwareFingerprint.CacheOK m p.2 := by
    intro m c t hOK
    unfold HardwareFingerprint.get_fingerprint
    cases hl : List.lookup t c with
    | some v =>
      have hv := hOK (t, v) (mem_of_lookup hl)
      constructor
      · simp [hv]
      · intro p hp
        injection hp with hp2
        rw [← hp2]
        exact hOK
    | none =>
      constructor
      · cases hr : HardwareFingerprint.get_fingerprint_raw m t <;> simp [hr]
      · intro p hp
        cases hr : HardwareFingerprint.get_fingerprint_raw m t with
        | none => rw [hr] at hp; simp at hp
        | some v =>
          rw [hr] at hp
          simp only [Option.map_some] at hp
          injection hp with hp2
          rw [← hp2]
          intro kv hkv
          rcases List.mem_cons.mp hkv with he | hm
          · rw [he]
            exact hr
          · exact hOK kv hm
  refine ⟨?_, hcore, ?_, ?_⟩
  · intro m t ht
    obtain ⟨v, h1, _, h3, h4⟩ := get_fingerprint_raw_of_mem (m := m) ht
    exact ⟨v, h1, h3, h4⟩
  · intro m kv hkv
    cases hkv
  · intro m c1 c2 t h1 h2
    rw [(hcore m c1 t h1).1, (hcore m c2 t h2).1]

/-- C7 witness: the cache-consistency facts at a concrete machine and
cache state. -/
theorem c7_get_fingerprint_spec_witness :
    ("mac" : String) ∈ HardwareFingerprint.available_types ∧
    (∃ v, HardwareFingerprint.get_fingerprint_raw ⟨["aa"], ["d"], [], []⟩ "mac" = some v ∧
      v.length = 64 ∧ isLowerHex v = true) ∧
    (HardwareFingerprint.get_fingerprint ⟨["aa"], ["d"], [], []⟩
        HardwareFingerprint.clear_cache "mac").map Prod.fst =
      HardwareFingerprint.get_fingerprint_raw ⟨["aa"], ["d"], [], []⟩ "mac" :=
  ⟨by decide,
   c7_get_fingerprint_spec.1 ⟨["aa"], ["d"], [], []⟩ "mac" (by decide),
   (c7_get_fingerprint_spec.2.1 ⟨["aa"], ["d"], [], []⟩ HardwareFingerprint.clear_cache
     "mac" (c7_get_fingerprint_spec.2.2.1 ⟨["aa"], ["d"], [], []⟩)).1⟩

/-- C10: the `LicenseGenerator` and `LicenseManager` constructors accept
any pair of strings without validation and store them verbatim; malformed
key material is rejected only when a signing or verification operation
uses it. -/
theorem c10_constructors_store_verbatim :
    (∀ k p, (LicenseGenerator.mk k p).private_key_b64 = k ∧
      (LicenseGenerator.mk k p).preseed = p) ∧
    (∀ k p, (LicenseManager.mk k p).public_key_b64 = k ∧
      (LicenseManager.mk k p).preseed = p) ∧
    (∀ (k p expiry ftype comp : String) (add : List (String × JVal)) (m : Machine)
      (today de : Date), parseDate expiry = some de →
      ftype ∈ HardwareFingerprint.available_types →
      CryptoManager.load_private_key k = none →
      ∃ msg, LicenseGenerator.generate_license ⟨k, p⟩ m today expiry ftype add comp none =
        .error (.cryptoError msg)) ∧
    (∀ data sig k, CryptoManager.load_public_key k = none →
      ∃ msg, CryptoManager.verify_signature data sig k = .error msg) := by
  refine ⟨fun k p => ⟨rfl, rfl⟩, fun k p => ⟨rfl, rfl⟩, ?_, ?_⟩
  · intro k p expiry ftype comp add m today de hexp hft hk
    obtain ⟨hw, hhw, _, _, _⟩ := get_fingerprint_raw_of_mem (m := m) hft
    refine ⟨"Invalid private key", ?_⟩
    unfold LicenseGenerator.generate_license
    rw [hexp]
    simp only
    rw [hhw]
    simp only
    have hsig : CryptoManager.sign_data (dumpObj (LicenseGenerator.licenseRecord ⟨k, p⟩
        today expiry ftype hw comp add)) (LicenseGenerator.mk k p).private_key_b64 =
        .error "Invalid private key" := by
      unfold CryptoManager.sign_data
      have h2 : (LicenseGenerator.mk k p).private_key_b64 = k := rfl
      rw [h2, hk]
    rw [hsig]
  · intro data sig k hk
    refine ⟨"Invalid public key", ?_⟩
    unfold CryptoManager.verify_signature
    rw [hk]

/-- C10 witness: the non-key text "dummy" is stored verbatim and rejected
only at use time. -/
theorem c10_constructors_store_verbatim_witness :
    (LicenseGenerator.mk "dummy" "dummy").private_key_b64 = "dummy" ∧
    (∃ msg, LicenseGenerator.generate_license ⟨"dummy", "dummy"⟩
      ⟨["aa"], ["d"], [], []⟩ ⟨2025, 6, 15⟩ "2025-12-31" "mac" [] "" none =
      .error (.cryptoError msg)) ∧
    (∃ msg, CryptoManager.verify_signature "x" "y" "dummy" = .error msg) :=
  ⟨(c10_constructors_store_verbatim.1 "dummy" "dummy").1,
   c10_constructors_store_verbatim.2.2.1 "dummy" "dummy" "2025-12-31" "mac" "" []
     ⟨["aa"], ["d"], [], []⟩ ⟨2025, 6, 15⟩ ⟨2025, 12, 31⟩ (by decide) (by decide)
     (by decide),
   c10_constructors_store_verbatim.2.2.2 "x" "y" "dummy" (by decide)⟩

/-- C8: `load_preseed_from_file` returns the 64-character lowercase-hex
SHA-256 digest of `secret_content ++ canonical_json(metadata or {}) ++
format_version`, never the raw secret; it is deterministic; distinct
metadata give distinct commitment messages (and, concretely, the two
test fixture files give different hashes); and it fails for a missing
file, invalid JSON, or a missing `secret_content` field. -/
theorem c8_load_preseed_spec :
    (∀ content obj secret, jsonParse content = some obj →
      lookupJ "secret_content" obj = some (.jstr secret) →
      PreseedGenerator.load_preseed_from_file (some content) =
        .ok (CryptoManager.hash_data (secret ++ PreseedGenerator.canonical_json
          (PreseedGenerator.metaOf obj) ++ PreseedGenerator.fvOf obj)) ∧
      (CryptoManager.hash_data (secret ++ PreseedGenerator.canonical_json
        (PreseedGenerator.metaOf obj) ++ PreseedGenerator.fvOf obj)).length = 64 ∧
      isLowerHex (CryptoManager.hash_data (secret ++ PreseedGenerator.canonical_json
        (PreseedGenerator.metaOf obj) ++ PreseedGenerator.fvOf obj)) = true) ∧
    (∀ c r1 r2, PreseedGenerator.load_preseed_from_file c = r1 →
      PreseedGenerator.load_preseed_from_file c = r2 → r1 = r2) ∧
    (∀ (secret fv : String) (m1 m2 : List (String × String)),
      List.Sorted keyLe (m1.map (fun kv => (kv.1, JVal.jstr kv.2))) →
      List.Sorted keyLe (m2.map (fun kv => (kv.1, JVal.jstr kv.2))) →
      (∀ kv ∈ m1, plainStr kv.1 = true ∧ plainStr kv.2 = true) →
      (∀ kv ∈ m2, plainStr kv.1 = true ∧ plainStr kv.2 = true) →
      m1 ≠ m2 →
      secret ++ PreseedGenerator.canonical_json m1 ++ fv ≠
        secret ++ PreseedGenerator.canonical_json m2 ++ fv) ∧
    PreseedGenerator.load_preseed_from_file none = .error .notFound ∧
    (∀ s, jsonParse s = none → PreseedGenerator.load_preseed_from_file (some s) =
      .error (.formatError "Invalid JSON in preseed file")) ∧
    (∀ s obj, jsonParse s = some obj →
      lookupJ "secret_content" obj = none →
      ∃ msg, PreseedGenerator.load_preseed_from_file (some s) =
        .error (.formatError msg)) ∧
    (PreseedGenerator.load_preseed_from_file (some (dumpObj c8file1)) ≠
      PreseedGenerator.load_preseed_from_file (some (dumpObj c8file2)) ∧
     PreseedGenerator.load_preseed_from_file (some (dumpObj c8file1)) ≠
      .ok "same_secret_content_for_both") := by
  refine ⟨?_, ?_, ?_, rfl, ?_, ?_, by decide⟩
  · intro content obj secret hparse hsec
    refine ⟨?_, length_hash_data _, isLowerHex_hash_data _⟩
    unfold PreseedGenerator.load_preseed_from_file
    simp only [hparse, hsec]
  · intro c r1 r2 h1 h2
    rw [← h1, ← h2]
  · intro secret fv m1 m2 hs1 hs2 hp1 hp2 hne heq
    apply hne
    have hcj : PreseedGenerator.canonical_json m1 = PreseedGenerator.canonical_json m2 :=
      strCancelLeft (strCancelRight heq)
    unfold PreseedGenerator.canonical_json canonicalDump at hcj
    rw [hs1.insertionSort_eq, hs2.insertionSort_eq] at hcj
    have hplain : ∀ m : List (String × String), (∀ kv ∈ m, plainStr kv.1 = true ∧
        plainStr kv.2 = true) →
        PlainEntries (m.map (fun kv => (kv.1, JVal.jstr kv.2))) := by
      intro m hm kv hkv
      obtain ⟨kv2, hkv2, he⟩ := List.mem_map.mp hkv
      obtain ⟨h1, h2⟩ := hm kv2 hkv2
      rw [← he]
      exact ⟨h1, kv2.2, rfl, h2⟩
    have hps := congrArg jsonParse hcj
    rw [jsonParse_dumpObj (hplain m1 hp1), jsonParse_dumpObj (hplain m2 hp2)] at hps
    injection hps with hmap
    have hinj : Function.Injective (fun kv : String × String => (kv.1, JVal.jstr kv.2)) := by
      intro a b hab
      obtain ⟨a1, a2⟩ := a
      obtain ⟨b1, b2⟩ := b
      simp only [Prod.mk.injEq, JVal.jstr.injEq] at hab
      rw [hab.1, hab.2]
    exact List.map_injective_iff.mpr hinj hmap
  · intro s hs
    unfold PreseedGenerator.load_preseed_from_file
    simp only [hs]
  · intro s obj hparse hsec
    refine ⟨"Preseed file missing secret_content field", ?_⟩
    unfold PreseedGenerator.load_preseed_from_file
    simp only [hparse, hsec]

/-- C8 witness: a concrete valid preseed file hits the digest formula. -/
theorem c8_load_preseed_spec_witness :
    PreseedGenerator.load_preseed_from_file (some (dumpObj c8file1)) =
      .ok (CryptoManager.hash_data ("same_secret_content_for_both" ++
        PreseedGenerator.canonical_json (PreseedGenerator.metaOf c8file1) ++
        PreseedGenerator.fvOf c8file1)) :=
  (c8_load_preseed_spec.1 (dumpObj c8file1) c8file1 "same_secret_content_for_both"
    (by decide) (by decide)).1

/-- C4: the verifier rejects structurally bad input in a fixed sequence
with the message of the first failed check: unparseable input, then the
first missing required field, then an unsupported version, then an
invalid expiry or issued date format. -/
theorem c4_verify_structural_errors :
    (∀ (mgr : LicenseManager) (m : Machine) (today : Date) (s : String) (chw cexp : Bool),
      jsonParse s = none →
      mgr.verify_license m today s chw cexp = .error (.invalid "not valid JSON")) ∧
    (∀ (mgr : LicenseManager) (m : Machine) (today : Date) (s : String)
      (obj : List (String × JVal)) (f : String) (chw cexp : Bool),
      jsonParse s = some obj →
      requiredFields.find? (fun fd => (lookupJ fd obj).isNone) = some f →
      mgr.verify_license m today s chw cexp =
        .error (.invalid ("Missing required field: " ++ f))) ∧
    (∀ (mgr : LicenseManager) (m : Machine) (today : Date) (s : String)
      (obj : List (String × JVal)) (chw cexp : Bool),
      jsonParse s = some obj →
      requiredFields.find? (fun fd => (lookupJ fd obj).isNone) = none →
      lookupJ "version" obj ≠ some (.jstr "1.0") →
      mgr.verify_license m today s chw cexp =
        .error (.invalid "Unsupported license version")) ∧
    (∀ (mgr : LicenseManager) (m : Machine) (today : Date) (s : String)
      (obj : List (String × JVal)) (chw cexp : Bool),
      jsonParse s = some obj →
      requiredFields.find? (fun fd => (lookupJ fd obj).isNone) = none →
      lookupJ "version" obj = some (.jstr "1.0") →
      (getStr "expiry" obj).bind parseDate = none →
      mgr.verify_license m today s chw cexp = .error (.invalid "Invalid date format")) ∧
    (∀ (mgr : LicenseManager) (m : Machine) (today : Date) (s : String)
      (obj : List (String × JVal)) (de : Date) (chw cexp : Bool),
      jsonParse s = some obj →
      requiredFields.find? (fun fd => (lookupJ fd obj).isNone) = none →
      lookupJ "version" obj = some (.jstr "1.0") →
      (getStr "expiry" obj).bind parseDate = some de →
      (getStr "issued" obj).bind parseDate = none →
      mgr.verify_license m today s chw cexp = .error (.invalid "Invalid date format")) := by
  refine ⟨?_, ?_, ?_, ?_, ?_⟩
  · intro mgr m today s chw cexp hparse
    unfold LicenseManager.verify_license LicenseManager.parse_and_validate
    rw [hparse]
  · intro mgr m today s obj f chw cexp hparse hfind
    unfold LicenseManager.verify_license LicenseManager.parse_and_validate
    rw [hparse]
    simp only
    rw [hfind]
  · intro mgr m today s obj chw cexp hparse hfind hver
    unfold LicenseManager.verify_license LicenseManager.parse_and_validate
    rw [hparse]
    simp only
    rw [hfind]
    simp only
    rw [if_neg hver]
  · intro mgr m today s obj chw cexp hparse hfind hver hdate
    unfold LicenseManager.verify_license LicenseManager.parse_and_validate
    rw [hparse]
    simp only
    rw [hfind]
    simp only
    rw [if_pos hver, hdate]
  · intro mgr m today s obj de chw cexp hparse hfind hver hexp hiss
    unfold LicenseManager.verify_license LicenseManager.parse_and_validate
    rw [hparse]
    simp only
    rw [hfind]
    simp only
    rw [if_pos hver, hexp]
    simp only
    rw [hiss]

/-- C4 witness: the four error classes at concrete inputs. -/
theorem c4_verify_structural_errors_witness :
    ((⟨"k", "p"⟩ : LicenseManager).verify_license ⟨[], [], [], []⟩ ⟨2025, 6, 15⟩
      "invalid json string" true true = .error (.invalid "not valid JSON")) ∧
    ((⟨"k", "p"⟩ : LicenseManager).verify_license ⟨[], [], [], []⟩ ⟨2025, 6, 15⟩
      (dumpObj [("version", .jstr "1.0"), ("hw_type", .jstr "mac")]) true true =
      .error (.invalid ("Missing required field: " ++ "hw_info"))) ∧
    ((⟨"k", "p"⟩ : LicenseManager).verify_license ⟨[], [], [], []⟩ ⟨2025, 6, 15⟩
      (dumpObj [("version", .jstr "2.0"), ("hw_type", .jstr "mac"),
        ("hw_info", .jstr "t"), ("expiry", .jstr "2025-12-31"),
        ("issued", .jstr "2025-01-01"), ("preseed_hash", .jstr "t"),
        ("component_name", .jstr "t"), ("signature", .jstr "t")]) true true =
      .error (.invalid "Unsupported license version")) ∧
    ((⟨"k", "p"⟩ : LicenseManager).verify_license ⟨[], [], [], []⟩ ⟨2025, 6, 15⟩
      (dumpObj [("version", .jstr "1.0"), ("hw_type", .jstr "mac"),
        ("hw_info", .jstr "t"), ("expiry", .jstr "invalid-date"),
        ("issued", .jstr "2025-01-01"), ("preseed_hash", .jstr "t"),
        ("component_name", .jstr "t"), ("signature", .jstr "t")]) true true =
      .error (.invalid "Invalid date format")) :=
  ⟨c4_verify_structural_errors.1 ⟨"k", "p"⟩ ⟨[], [], [], []⟩ ⟨2025, 6, 15⟩
     "invalid json string" true true (by decide),
   c4_verify_structural_errors.2.1 ⟨"k", "p"⟩ ⟨[], [], [], []⟩ ⟨2025, 6, 15⟩
     (dumpObj [("version", .jstr "1.0"), ("hw_type", .jstr "mac")])
     [("version", .jstr "1.0"), ("hw_type", .jstr "mac")] "hw_info" true true
     (by decide) (by decide),
   c4_verify_structural_errors.2.2.1 ⟨"k", "p"⟩ ⟨[], [], [], []⟩ ⟨2025, 6, 15⟩ _
     [("version", .jstr "2.0"), ("hw_type", .jstr "mac"),
      ("hw_info", .jstr "t"), ("expiry", .jstr "2025-12-31"),
      ("issued", .jstr "2025-01-01"), ("preseed_hash", .jstr "t"),
      ("component_name", .jstr "t"), ("signature", .jstr "t")] true true
     (by decide) (by decide) (by decide),
   c4_verify_structural_errors.2.2.2.1 ⟨"k", "p"⟩ ⟨[], [], [], []⟩ ⟨2025, 6, 15⟩ _
     [("version", .jstr "1.0"), ("hw_type", .jstr "mac"),
      ("hw_info", .jstr "t"), ("expiry", .jstr "invalid-date"),
      ("issued", .jstr "2025-01-01"), ("preseed_hash", .jstr "t"),
      ("component_name", .jstr "t"), ("signature", .jstr "t")] true true
     (by decide) (by decide) (by decide) (by decide)⟩

/-- C2: `verify_signature` returns `false` — never throws — for tampered
data or a mismatched key pair (throwing is reserved for malformed key
encodings), and verifying a license signed under one key pair with a
manager holding a different public key fails with `LicenseInvalidError`
whose message contains "signature is invalid". -/
theorem c2_signature_rejection :
    (∀ (data data2 s1 s2 sig : String),
      CryptoManager.sign_data data (CryptoManager.privTag ++ s1) = .ok sig →
      (data2 ≠ data ∨ s2 ≠ s1) →
      CryptoManager.verify_signature data2 sig (CryptoManager.pubTag ++ s2) = .ok false) ∧
    (∀ (seed seed2 preseed expiry ftype comp : String) (add : List (String × JVal))
      (m : Machine) (today de : Date) (chw cexp : Bool),
      plainStr seed = true → plainStr expiry = true → parseDate expiry = some de →
      validDate today = true → ftype ∈ HardwareFingerprint.available_types →
      plainStr comp = true → PlainEntries add → (add.map Prod.fst).Nodup →
      (∀ kv ∈ add, kv.1 ∉ requiredFields) →
      seed2 ≠ seed →
      ∃ lic, LicenseGenerator.generate_license (genOf seed preseed) m today expiry ftype
          add comp none = .ok lic ∧
        ∃ msg, (mgrOf seed2 preseed).verify_license m today lic chw cexp =
          .error (.invalid msg) ∧ containsStr msg "signature is invalid") := by
  constructor
  · intro data data2 s1 s2 sig hsig hor
    rw [sign_data_tagged] at hsig
    injection hsig with hsigv
    rw [verify_signature_tagged]
    congr 1
    rw [← hsigv, beq_eq_false_iff_ne]
    intro heq
    obtain ⟨hs, hd⟩ := sig_encoding_inj_full heq
    rcases hor with h | h
    · exact h hd.symm
    · exact h hs.symm
  · intro seed seed2 preseed expiry ftype comp add m today de chw cexp hseed hexpP hexp
      htod hft hcomp hadd haddN haddR hne
    obtain ⟨hw, hhw, _, _, _⟩ := get_fingerprint_raw_of_mem (m := m) hft
    refine ⟨_, generate_license_ok hexp hhw, "signature is invalid", ?_, List.infix_refl _⟩
    exact (verify_generated_cases seed seed2 preseed preseed hseed hexpP hexp htod hft hhw
      hcomp hadd haddN haddR chw cexp).1 hne

/-- C2 witness: a tampered message and a cross-key verification at
concrete inputs. -/
theorem c2_signature_rejection_witness :
    CryptoManager.verify_signature "other data"
      ("SIG|" ++ CryptoManager.privTag ++ "s1" ++ "|" ++ CryptoManager.hexEncode "data")
      (CryptoManager.pubTag ++ "s1") = .ok false ∧
    ∃ lic, LicenseGenerator.generate_license (genOf "s1" "p") ⟨["aa"], ["d"], [], []⟩
        ⟨2025, 6, 15⟩ "2025-12-31" "mac" [] "" none = .ok lic ∧
      ∃ msg, (mgrOf "s2" "p").verify_license ⟨["aa"], ["d"], [], []⟩ ⟨2025, 6, 15⟩ lic
        false false = .error (.invalid msg) ∧ containsStr msg "signature is invalid" :=
  ⟨c2_signature_rejection.1 "data" "other data" "s1" "s1" _ rfl
     (Or.inl (by decide)),
   c2_signature_rejection.2 "s1" "s2" "p" "2025-12-31" "mac" "" [] ⟨["aa"], ["d"], [], []⟩
     ⟨2025, 6, 15⟩ ⟨2025, 12, 31⟩ false false (by decide) (by decide) (by decide)
     (by decide) (by decide) (by decide) (fun kv hkv => absurd hkv (List.not_mem_nil kv))
     (by decide) (fun kv hkv => absurd hkv (List.not_mem_nil kv)) (by decide)⟩

/-- C3: a license generated under preseed A never verifies under a
manager configured with a different preseed B — even with the hardware
and expiry checks disabled it raises `LicenseInvalidError` with a message
containing "preseed hash is invalid" (stated up to SHA-256 collisions:
the two preseed commitments are assumed to differ, which the witness
establishes by computation). -/
theorem c3_wrong_preseed_rejection :
    ∀ (seed preseedA preseedB expiry ftype comp : String) (add : List (String × JVal))
      (m : Machine) (today de : Date) (hw : String) (chw cexp : Bool),
      plainStr seed = true → plainStr expiry = true → parseDate expiry = some de →
      validDate today = true → ftype ∈ HardwareFingerprint.available_types →
      HardwareFingerprint.get_fingerprint_raw m ftype = some hw →
      plainStr comp = true → PlainEntries add → (add.map Prod.fst).Nodup →
      (∀ kv ∈ add, kv.1 ∉ requiredFields) →
      preseedB ≠ preseedA →
      CryptoManager.create_preseed_hash preseedA hw ftype expiry comp ≠
        CryptoManager.create_preseed_hash preseedB hw ftype expiry comp →
      ∃ lic, LicenseGenerator.generate_license (genOf seed preseedA) m today expiry ftype
          add comp none = .ok lic ∧
        ∃ msg, (mgrOf seed preseedB).verify_license m today lic chw cexp =
          .error (.invalid msg) ∧ containsStr msg "preseed hash is invalid" := by
  intro seed preseedA preseedB expiry ftype comp add m today de hw chw cexp hseed hexpP
    hexp htod hft hhw hcomp hadd haddN haddR _ hcoll
  refine ⟨_, generate_license_ok hexp hhw, "preseed hash is invalid", ?_, List.infix_refl _⟩
  exact (verify_generated_cases seed seed preseedA preseedB hseed hexpP hexp htod hft hhw
    hcomp hadd haddN haddR chw cexp).2.1 hcoll

/-- C3 witness: the commitments under preseeds "pre-A" and "pre-B"
differ by computation, and the rejection follows. -/
theorem c3_wrong_preseed_rejection_witness :
    ∃ lic, LicenseGenerator.generate_license (genOf "s1" "pre-A") ⟨["aa"], ["d"], [], []⟩
        ⟨2025, 6, 15⟩ "2025-12-31" "mac" [] "" none = .ok lic ∧
      ∃ msg, (mgrOf "s1" "pre-B").verify_license ⟨["aa"], ["d"], [], []⟩ ⟨2025, 6, 15⟩ lic
        false false = .error (.invalid msg) ∧ containsStr msg "preseed hash is invalid" :=
  c3_wrong_preseed_rejection "s1" "pre-A" "pre-B" "2025-12-31" "mac" "" []
    ⟨["aa"], ["d"], [], []⟩ ⟨2025, 6, 15⟩ ⟨2025, 12, 31⟩
    (CryptoManager.hash_data (HardwareFingerprint.macCanon ⟨["aa"], ["d"], [], []⟩))
    false false (by decide) (by decide) (by decide) (by decide) (by decide) rfl
    (by decide) (fun kv hkv => absurd hkv (List.not_mem_nil kv)) (by decide)
    (fun kv hkv => absurd hkv (List.not_mem_nil kv)) (by decide) (by decide)

/-- C6: with `check_expiry` enabled, verification of an otherwise-valid
license whose expiry has passed raises `LicenseExpiredError` (distinct
from `LicenseInvalidError`), and the same license verifies when the
check is disabled; `get_days_until_expiry` returns the signed whole-day
difference from today to the expiry date (anchored concretely at -1, 0,
+30 and -10 days) and `none` when the license cannot be parsed or
structurally validated. -/
theorem c6_expiry_and_days_spec :
    (∀ (seed preseed expiry ftype comp : String) (add : List (String × JVal))
      (m : Machine) (today de : Date) (chw : Bool),
      plainStr seed = true → plainStr expiry = true → parseDate expiry = some de →
      validDate today = true → ftype ∈ HardwareFingerprint.available_types →
      plainStr comp = true → PlainEntries add → (add.map Prod.fst).Nodup →
      (∀ kv ∈ add, kv.1 ∉ requiredFields) →
      toOrdinal de < toOrdinal today →
      ∃ lic, LicenseGenerator.generate_license (genOf seed preseed) m today expiry ftype
          add comp none = .ok lic ∧
        (∃ msg, (mgrOf seed preseed).verify_license m today lic chw true =
          .error (.expired msg)) ∧
        ∃ out, (mgrOf seed preseed).verify_license m today lic chw false = .ok out) ∧
    (∀ (mgr : LicenseManager) (today : Date) (s : String) (obj : List (String × JVal))
      (de di : Date),
      jsonParse s = some obj →
      requiredFields.find? (fun fd => (lookupJ fd obj).isNone) = none →
      lookupJ "version" obj = some (.jstr "1.0") →
      (getStr "expiry" obj).bind parseDate = some de →
      (getStr "issued" obj).bind parseDate = some di →
      mgr.get_days_until_expiry today s =
        some ((toOrdinal de : Int) - (toOrdinal today : Int))) ∧
    (∀ (mgr : LicenseManager) (today : Date) (s : String),
      jsonParse s = none → mgr.get_days_until_expiry today s = none) ∧
    (∀ (mgr : LicenseManager) (today : Date) (s : String) (obj : List (String × JVal))
      (f : String),
      jsonParse s = some obj →
      requiredFields.find? (fun fd => (lookupJ fd obj).isNone) = some f →
      mgr.get_days_until_expiry today s = none) ∧
    ((⟨"k", "p"⟩ : LicenseManager).get_days_until_expiry ⟨2025, 6, 15⟩
      (anchorLicense "2025-06-14") = some (-1) ∧
     (⟨"k", "p"⟩ : LicenseManager).get_days_until_expiry ⟨2025, 6, 15⟩
      (anchorLicense "2025-06-15") = some 0 ∧
     (⟨"k", "p"⟩ : LicenseManager).get_days_until_expiry ⟨2025, 6, 15⟩
      (anchorLicense "2025-07-15") = some 30 ∧
     (⟨"k", "p"⟩ : LicenseManager).get_days_until_expiry ⟨2025, 6, 15⟩
      (anchorLicense "2025-06-05") = some (-10)) := by
  refine ⟨?_, ?_, ?_, ?_, by decide⟩
  · intro seed preseed expiry ftype comp add m today de chw hseed hexpP hexp htod hft
      hcomp hadd haddN haddR hlt
    obtain ⟨hw, hhw, _, _, _⟩ := get_fingerprint_raw_of_mem (m := m) hft
    have hcases := verify_generated_cases seed seed preseed preseed hseed hexpP hexp htod
      hft hhw hcomp hadd haddN haddR chw
    refine ⟨_, generate_license_ok hexp hhw, ⟨"License has expired", ?_⟩,
      ⟨signedRecord seed preseed today expiry ftype hw comp add, ?_⟩⟩
    · exact (hcases true).2.2.1 rfl hlt
    · exact (hcases false).2.2.2 (Or.inl rfl)
  · intro mgr today s obj de di hparse hfind hver hexp hiss
    unfold LicenseManager.get_days_until_expiry LicenseManager.parse_and_validate
    simp only [hparse, hfind]
    rw [if_pos hver, hexp]
    simp only
    rw [hiss]
  · intro mgr today s hparse
    unfold LicenseManager.get_days_until_expiry LicenseManager.parse_and_validate
    simp only [hparse]
  · intro mgr today s obj f hparse hfind
    unfold LicenseManager.get_days_until_expiry LicenseManager.parse_and_validate
    simp only [hparse, hfind]

/-- C6 witness: the expired/skip-expiry pair at concrete inputs. -/
theorem c6_expiry_and_days_spec_witness :
    ∃ lic, LicenseGenerator.generate_license (genOf "s1" "p") ⟨["aa"], ["d"], [], []⟩
        ⟨2025, 6, 15⟩ "2020-01-01" "mac" [] "C" none = .ok lic ∧
      (∃ msg, (mgrOf "s1" "p").verify_license ⟨["aa"], ["d"], [], []⟩ ⟨2025, 6, 15⟩ lic
        false true = .error (.expired msg)) ∧
      ∃ out, (mgrOf "s1" "p").verify_license ⟨["aa"], ["d"], [], []⟩ ⟨2025, 6, 15⟩ lic
        false false = .ok out :=
  c6_expiry_and_days_spec.1 "s1" "p" "2020-01-01" "mac" "C" [] ⟨["aa"], ["d"], [], []⟩
    ⟨2025, 6, 15⟩ ⟨2020, 1, 1⟩ false (by decide) (by decide) (by decide) (by decide)
    (by decide) (by decide) (fun kv hkv => absurd hkv (List.not_mem_nil kv)) (by decide)
    (fun kv hkv => absurd hkv (List.not_mem_nil kv)) (by decide)

/-- C1: for every valid key pair, preseed, future expiry, supported
fingerprint type, component name and additional-data mapping,
`verify_license` on the output of `generate_license` (same machine, same
preseed, matching keys) succeeds and returns a record whose
`component_name`, `expiry` and additional-data fields equal exactly the
generation inputs. -/
theorem c1_generate_verify_roundtrip :
    ∀ (seed preseed expiry ftype comp : String) (add : List (String × JVal))
      (m : Machine) (today de : Date),
      plainStr seed = true → plainStr expiry = true → parseDate expiry = some de →
      validDate today = true → toOrdinal today ≤ toOrdinal de →
      ftype ∈ HardwareFingerprint.available_types →
      plainStr comp = true → PlainEntries add → (add.map Prod.fst).Nodup →
      (∀ kv ∈ add, kv.1 ∉ requiredFields) →
      ∃ lic, LicenseGenerator.generate_license (genOf seed preseed) m today expiry ftype
          add comp none = .ok lic ∧
        ∃ out, (mgrOf seed preseed).verify_license m today lic true true = .ok out ∧
          lookupJ "component_name" out = some (.jstr comp) ∧
          lookupJ "expiry" out = some (.jstr expiry) ∧
          ∀ kv ∈ add, lookupJ kv.1 out = some kv.2 := by
  intro seed preseed expiry ftype comp add m today de hseed hexpP hexp htod hfut hft
    hcomp hadd haddN haddR
  obtain ⟨hw, hhw, _, _, _⟩ := get_fingerprint_raw_of_mem (m := m) hft
  obtain ⟨_, _, _, h4, _, _, h7⟩ :=
    signedRecord_lookups seed preseed expiry ftype comp hw today haddN haddR
  refine ⟨_, generate_license_ok hexp hhw,
    signedRecord seed preseed today expiry ftype hw comp add, ?_, ?_, ?_, ?_⟩
  · exact (verify_generated_cases seed seed preseed preseed hseed hexpP hexp htod hft hhw
      hcomp hadd haddN haddR true true).2.2.2 (Or.inr hfut)
  · exact h7
  · exact h4
  · intro kv hkv
    have hnsig : kv.1 ≠ "signature" := by
      intro heq
      exact haddR kv hkv (by rw [heq]; decide)
    unfold lookupJ
    rw [signedRecord_lookup_ne hnsig]
    exact record_lookup_add haddN haddR hkv

/-- C1 witness: the round trip at a fully concrete instance. -/
theorem c1_generate_verify_roundtrip_witness :
    ∃ lic, LicenseGenerator.generate_license (genOf "s1" "p") ⟨["aa"], ["d"], [], []⟩
        ⟨2025, 6, 15⟩ "2025-12-31" "mac" [("app_name", .jstr "App")] "Comp" none =
        .ok lic ∧
      ∃ out, (mgrOf "s1" "p").verify_license ⟨["aa"], ["d"], [], []⟩ ⟨2025, 6, 15⟩ lic
          true true = .ok out ∧
        lookupJ "component_name" out = some (.jstr "Comp") ∧
        lookupJ "expiry" out = some (.jstr "2025-12-31") ∧
        ∀ kv ∈ [(("app_name" : String), JVal.jstr "App")], lookupJ kv.1 out = some kv.2 :=
  c1_generate_verify_roundtrip "s1" "p" "2025-12-31" "mac" "Comp"
    [("app_name", .jstr "App")] ⟨["aa"], ["d"], [], []⟩ ⟨2025, 6, 15⟩ ⟨2025, 12, 31⟩
    (by decide) (by decide) (by decide) (by decide) (by decide) (by decide) (by decide)
    (by
      intro kv hkv
      simp only [List.mem_cons, List.not_mem_nil, or_false] at hkv
      rw [hkv]
      exact ⟨by decide, "App", rfl, by decide⟩)
    (by decide)
    (by
      intro kv hkv
      simp only [List.mem_cons, List.not_mem_nil, or_false] at hkv
      rw [hkv]
      decide)

/-- C9: `auto_verify_licenses` never throws to its caller (the model is
a total function into `AutoVerifyResult`; every failure is reported
through the result's `error` field): with no license-like files the
error contains "No license files found"; with license files but no
key files it contains "No key files found"; and when every candidate
license line verifies, the result carries no error and its summary has
`total_licenses` and `valid_count` both equal to the number of
candidate lines. -/
theorem c9_auto_verify_spec :
    (∀ (files : List (String × String)) (m : Machine) (today : Date) (chw cexp : Bool),
      files.filter (fun f => isLicenseFileName f.1) = [] →
      ∃ err, (auto_verify_licenses files m today chw cexp).error = some err ∧
        containsStr err "No license files found") ∧
    (∀ (files : List (String × String)) (m : Machine) (today : Date) (chw cexp : Bool),
      files.filter (fun f => isLicenseFileName f.1) ≠ [] →
      files.filter (fun f => isKeyFileName f.1) = [] →
      ∃ err, (auto_verify_licenses files m today chw cexp).error = some err ∧
        containsStr err "No key files found") ∧
    (∀ (files : List (String × String)) (m : Machine) (today : Date) (chw cexp : Bool)
      (pub pre : String),
      files.filter (fun f => isLicenseFileName f.1) ≠ [] →
      (files.filter (fun f => isKeyFileName f.1)).findSome?
        (fun f => extractKeyInfo f.2) = some (pub, pre) →
      (∀ line ∈ (files.filter (fun f => isLicenseFileName f.1)).flatMap
          (fun f => licenseLines f.2),
        ((⟨pub, pre⟩ : LicenseManager).verify_license m today line chw cexp).toOption.isSome
          = true) →
      (auto_verify_licenses files m today chw cexp).error = none ∧
      (auto_verify_licenses files m today chw cexp).total_licenses =
        ((files.filter (fun f => isLicenseFileName f.1)).flatMap
          (fun f => licenseLines f.2)).length ∧
      (auto_verify_licenses files m today chw cexp).valid_count =
        (auto_verify_licenses files m today chw cexp).total_licenses) := by
  refine ⟨?_, ?_, ?_⟩
  · intro files m today chw cexp h
    refine ⟨"No license files found", ?_, List.infix_refl _⟩
    unfold auto_verify_licenses
    rw [h]
    rfl
  · intro files m today chw cexp h1 h2
    refine ⟨"No key files found", ?_, List.infix_refl _⟩
    have hlic : (files.filter (fun f => isLicenseFileName f.1)).isEmpty = false := by
      cases hfl : files.filter (fun f => isLicenseFileName f.1) with
      | nil => exact absurd hfl h1
      | cons a l => rfl
    unfold auto_verify_licenses
    simp only [hlic, h2]
    rfl
  · intro files m today chw cexp pub pre h1 hfind hall
    have hlic : (files.filter (fun f => isLicenseFileName f.1)).isEmpty = false := by
      cases hfl : files.filter (fun f => isLicenseFileName f.1) with
      | nil => exact absurd hfl h1
      | cons a l => rfl
    have hkey : (files.filter (fun f => isKeyFileName f.1)).isEmpty = false := by
      cases hfk : files.filter (fun f => isKeyFileName f.1) with
      | nil => rw [hfk] at hfind; exact Option.noConfusion hfind
      | cons a l => rfl
    have hallmap : ∀ r ∈ ((files.filter (fun f => isLicenseFileName f.1)).flatMap
        (fun f => licenseLines f.2)).map
        (fun line => (⟨pub, pre⟩ : LicenseManager).verify_license m today line chw cexp),
        r.toOption.isSome = true := by
      intro r hr
      obtain ⟨line, hline, hre⟩ := List.mem_map.mp hr
      rw [← hre]
      exact hall line hline
    unfold auto_verify_licenses
    simp only [hlic, hkey, hfind, Bool.false_eq_true, if_false]
    refine ⟨trivial, trivial, ?_⟩
    rw [List.countP_eq_length.mpr hallmap, List.length_map]

/-- C9 witness: the three outcomes at concrete directories — empty,
license-only, and a blank license file with a usable key file. -/
theorem c9_auto_verify_spec_witness :
    (∃ err, (auto_verify_licenses [] ⟨[], [], [], []⟩ ⟨2025, 6, 15⟩ true true).error =
      some err ∧ containsStr err "No license files found") ∧
    (∃ err, (auto_verify_licenses [("license.txt", "x")] ⟨[], [], [], []⟩ ⟨2025, 6, 15⟩
      true true).error = some err ∧ containsStr err "No key files found") ∧
    ((auto_verify_licenses
        [("license1.txt", " \n"),
         ("keys.json", dumpObj [("public_key", .jstr "PUBKEY:s"), ("preseed", .jstr "p")])]
        ⟨[], [], [], []⟩ ⟨2025, 6, 15⟩ true true).error = none ∧
     (auto_verify_licenses
        [("license1.txt", " \n"),
         ("keys.json", dumpObj [("public_key", .jstr "PUBKEY:s"), ("preseed", .jstr "p")])]
        ⟨[], [], [], []⟩ ⟨2025, 6, 15⟩ true true).total_licenses = 0 ∧
     (auto_verify_licenses
        [("license1.txt", " \n"),
         ("keys.json", dumpObj [("public_key", .jstr "PUBKEY:s"), ("preseed", .jstr "p")])]
        ⟨[], [], [], []⟩ ⟨2025, 6, 15⟩ true true).valid_count =
      (auto_verify_licenses
        [("license1.txt", " \n"),
         ("keys.json", dumpObj [("public_key", .jstr "PUBKEY:s"), ("preseed", .jstr "p")])]
        ⟨[], [], [], []⟩ ⟨2025, 6, 15⟩ true true).total_licenses) :=
  ⟨c9_auto_verify_spec.1 [] ⟨[], [], [], []⟩ ⟨2025, 6, 15⟩ true true rfl,
   c9_auto_verify_spec.2.1 [("license.txt", "x")] ⟨[], [], [], []⟩ ⟨2025, 6, 15⟩ true true
     (by decide) (by decide),
   by
    have h := c9_auto_verify_spec.2.2
      [("license1.txt", " \n"),
       ("keys.json", dumpObj [("public_key", .jstr "PUBKEY:s"), ("preseed", .jstr "p")])]
      ⟨[], [], [], []⟩ ⟨2025, 6, 15⟩ true true "PUBKEY:s" "p" (by decide) (by decide)
      (by decide)
    refine ⟨h.1, ?_, h.2.2⟩
    rw [h.2.1]
    decide⟩

end LicensingPy

